import Mathlib

/-!
Verification development for the bnk-tools repository (Wwise soundbank
patcher `SoundBankPatcher.py` and event/hierarchy parser `events_parser.py`).

The Python programs are shallowly embedded: byte strings become `List Nat`
(each element is a byte; multi-byte decoders reduce elements mod 256, which
is the identity on real byte values), Python exceptions become `Option`
failures (`none` models a raised exception), and file streams become the
byte list with explicit positions.  Only the little-endian byte order used
by default in the source is modelled; the endianness parameter is threaded
identically to reads and writes in the source, so nothing claim-relevant
depends on it.
-/

namespace WwiseBnk

/-- Little-endian decode of a byte list (each element reduced mod 256,
matching Python `struct.unpack` over a `bytes` slice). -/
def bytesToNat (l : List Nat) : Nat :=
  l.foldr (fun b acc => b % 256 + 256 * acc) 0

/-- Little-endian 4-byte encode of `n`, matching `struct.pack` with format I
(a value at or above 2 to the 32 raises in Python; callers in the claims
stay below that bound). -/
def enc32 (n : Nat) : List Nat :=
  [n % 256, n / 256 % 256, n / 256 ^ 2 % 256, n / 256 ^ 3 % 256]

/-- Bounded u32 read at absolute position `p`; `none` models the
`struct.error` raised when the read would cross the buffer end. -/
def u32At (data : List Nat) (p : Nat) : Option Nat :=
  if p + 4 ≤ data.length then some (bytesToNat ((data.drop p).take 4)) else none

/-- Bounded u16 read at absolute position `p`. -/
def u16At (data : List Nat) (p : Nat) : Option Nat :=
  if p + 2 ≤ data.length then some (bytesToNat ((data.drop p).take 2)) else none

/-- Single byte read, `none` models `IndexError`. -/
def byteAt (data : List Nat) (p : Nat) : Option Nat :=
  (data.get? p).map (· % 256)

/-- Two's-complement signed reading of a 16-bit value (format h). -/
def toInt16 (v : Nat) : Int :=
  if v < 32768 then (v : Int) else (v : Int) - 65536

/-- Two's-complement signed reading of a 32-bit value (format i). -/
def toInt32 (v : Nat) : Int :=
  if v < 2 ^ 31 then (v : Int) else (v : Int) - 2 ^ 32

def tagBKHD : List Nat := [66, 75, 72, 68]
def tagDIDX : List Nat := [68, 73, 68, 88]
def tagDATA : List Nat := [68, 65, 84, 65]
def tagHIRC : List Nat := [72, 73, 82, 67]
def tagAKBK : List Nat := [65, 75, 66, 75]

/-! ## SoundBankPatcher.py -/

/-- A queued replacement byte source.  `present` models
`replacement_file.exists()` at queue time; `bytes? = none` models the file
failing to stat/read at save time. -/
structure ByteSource where
  present : Bool
  bytes? : Option (List Nat)
  deriving Repr, DecidableEq

/-- `AudioEntry` of SoundBankPatcher.py: one DIDX record plus the preloaded
payload bytes and the optional queued replacement. -/
structure AudioEntry where
  id : Nat
  offset : Nat
  size : Nat
  data : List Nat
  replacement : Option ByteSource
  deriving Repr, DecidableEq

/-- Result of `WwiseSoundbank._parse_sections`: the recognised section
payloads, the DATA chunk as (declared size, remaining file bytes from the
payload start), and the trailing bytes. -/
structure Sections where
  bkhd : Option (List Nat)
  didx : Option (List Nat)
  dataChunk : Option (Nat × List Nat)
  trailing : List Nat
  deriving Repr, DecidableEq

/-- The while-loop of `WwiseSoundbank._parse_sections`, fuelled so that it
evaluates by kernel reduction.  `rem` is the unread suffix of the file.
A 4-byte tag is read; fewer than 4 remaining bytes end the scan with empty
trailing bytes (the short read consumed them, so the final `stream.read()`
returns nothing).  An unrecognised tag rewinds and captures everything from
the tag as trailing bytes.  A recognised tag whose 4-byte size field is
truncated raises (`none`).  BKHD/DIDX payloads are stored (last one wins,
as in the Python dict); DATA records its declared size and stops, the
trailing bytes being whatever follows the declared payload extent. -/
def parseSectionsAux : Nat → List Nat → Option (List Nat) → Option (List Nat) →
    Option Sections
  | 0, _, _, _ => none
  | fuel + 1, rem, bk, dx =>
    if rem.length < 4 then some ⟨bk, dx, none, []⟩
    else
      let magic := rem.take 4
      if magic = tagBKHD ∨ magic = tagDIDX ∨ magic = tagDATA then
        if rem.length < 8 then none
        else
          let size := bytesToNat ((rem.drop 4).take 4)
          let rest := rem.drop 8
          if magic = tagDATA then
            some ⟨bk, dx, some (size, rest), rest.drop size⟩
          else if magic = tagBKHD then
            parseSectionsAux fuel (rest.drop size) (some (rest.take size)) dx
          else
            parseSectionsAux fuel (rest.drop size) bk (some (rest.take size))
      else
        some ⟨bk, dx, none, rem⟩

/-- `WwiseSoundbank._parse_sections` over a whole file.  Each loop
iteration consumes at least 8 bytes, so `file.length + 1` fuel never runs
out. -/
def parseSections (file : List Nat) : Option Sections :=
  parseSectionsAux (file.length + 1) file none none

/-- One iteration of the indexed loop in
`WwiseSoundbank._extract_audio_catalog`, reformulated as chunked recursion:
`didx_data[12*i : 12*i+12]` unpacked as three u32 values, for
`i < len // 12`.  Fuelled for kernel evaluation; `d.length` fuel always
suffices. -/
def didxTriplesAux : Nat → List Nat → List (Nat × Nat × Nat)
  | 0, _ => []
  | fuel + 1, d =>
    if 12 ≤ d.length then
      (bytesToNat (d.take 4), bytesToNat ((d.drop 4).take 4),
        bytesToNat ((d.drop 8).take 4)) :: didxTriplesAux fuel (d.drop 12)
    else []

/-- The (id, offset, size) triples read from a DIDX payload;
`len(didx_data) // 12` entries, trailing remainder bytes ignored. -/
def didxTriples (d : List Nat) : List (Nat × Nat × Nat) :=
  didxTriplesAux d.length d

/-- The parsed bank (`WwiseSoundbank` state after `_load_soundbank`).
`dataBlob` is the DATA payload actually present in the file,
`dataSize` the declared DATA size, `hasData` whether a DATA chunk was
seen. -/
structure Bank where
  bkhd : Option (List Nat)
  dataSize : Nat
  hasData : Bool
  dataBlob : List Nat
  trailing : List Nat
  entries : List AudioEntry
  deriving Repr, DecidableEq

/-- `WwiseSoundbank._preload_audio_data`: each entry reads `size` bytes at
file position `data_offset + offset` (a read past end-of-file silently
returns fewer bytes).  `dr` is the file suffix starting at the DATA payload
(so reads can run into the trailing bytes, as in the source). -/
def mkEntries (ts : List (Nat × Nat × Nat)) (dr : List Nat) : List AudioEntry :=
  ts.map fun t => ⟨t.1, t.2.1, t.2.2, (dr.drop t.2.1).take t.2.2, none⟩

/-- `WwiseSoundbank._load_soundbank`: parse sections, extract the catalog
(`ValueError` when DIDX is absent), preload audio data (`AttributeError`
when entries exist but no DATA chunk was seen). -/
def parseBank (file : List Nat) : Option Bank :=
  match parseSections file with
  | none => none
  | some s =>
    match s.didx with
    | none => none
    | some d =>
      let ts := didxTriples d
      match s.dataChunk with
      | some (sz, dr) => some ⟨s.bkhd, sz, true, dr.take sz, dr.drop sz, mkEntries ts dr⟩
      | none => if ts.isEmpty then some ⟨s.bkhd, 0, false, [], s.trailing, []⟩ else none

/-- `AudioEntry.final_size`: replacement stat size when queued, else the
original size; `none` models the `stat` call raising. -/
def finalSize (e : AudioEntry) : Option Nat :=
  match e.replacement with
  | some s => s.bytes?.map List.length
  | none => some e.size

/-- The loop of `WwiseSoundbank._rebuild_audio_index` at the value level:
(id, running offset, final size) per entry, offsets accumulating the final
sizes.  Fails at the first entry whose replacement fails to stat. -/
def rebuildTriples : List AudioEntry → Nat → Option (List (Nat × Nat × Nat))
  | [], _ => some []
  | e :: es, off =>
    match finalSize e with
    | none => none
    | some fs => (rebuildTriples es (off + fs)).map ((e.id, off, fs) :: ·)

/-- The `struct.pack` packing of (id, offset, size) triples used by
`_rebuild_audio_index`. -/
def encodeTriples (ts : List (Nat × Nat × Nat)) : List Nat :=
  (ts.map fun t => enc32 t.1 ++ enc32 t.2.1 ++ enc32 t.2.2).flatten

/-- `WwiseSoundbank._rebuild_audio_index`: the packed DIDX payload. -/
def rebuildAudioIndex (es : List AudioEntry) : Option (List Nat) :=
  (rebuildTriples es 0).map encodeTriples

/-- `WwiseSoundbank._serialize_audio_data`: concatenation of replacement
bytes (read failure propagates) or the preloaded entry data. -/
def serializeAudioData : List AudioEntry → Option (List Nat)
  | [] => some []
  | e :: es =>
    match e.replacement with
    | some s =>
      match s.bytes? with
      | none => none
      | some bs => (serializeAudioData es).map (bs ++ ·)
    | none => (serializeAudioData es).map (e.data ++ ·)

/-- `SoundbankSection.serialize`: tag, little-endian length, payload. -/
def secBytes (tag payload : List Nat) : List Nat :=
  tag ++ enc32 payload.length ++ payload

/-- The bytes `WwiseSoundbank.save` writes before anything can fail: the
BKHD section when present. -/
def headerOut (b : Bank) : List Nat :=
  match b.bkhd with
  | some h => secBytes tagBKHD h
  | none => []

/-- `WwiseSoundbank.save` as a sink trace: the bytes written to the output
file in order, and whether the save ran to completion.  The source writes
the BKHD section first, then rebuilds the index (the first point a queued
replacement can fail, via `stat`), writes the DIDX section, serialises the
audio data (the second failure point, via `open`/`read`), writes the DATA
section and finally the trailing bytes; an exception leaves the bytes
already written in the file. -/
def save (b : Bank) : List Nat × Bool :=
  let out0 := headerOut b
  match rebuildAudioIndex b.entries with
  | none => (out0, false)
  | some didx =>
    let out1 := out0 ++ secBytes tagDIDX didx
    match serializeAudioData b.entries with
    | none => (out1, false)
    | some ad => (out1 ++ secBytes tagDATA ad ++ b.trailing, true)

/-- `WwiseSoundbank.find_audio_entry`: first entry with the given id. -/
def findAudioEntry (b : Bank) (aid : Nat) : Option AudioEntry :=
  b.entries.find? fun e => e.id = aid

/-- Record a replacement on the first entry with the given id (the Python
code mutates the object returned by `find_audio_entry`). -/
def updateReplacement : List AudioEntry → Nat → ByteSource → List AudioEntry
  | [], _, _ => []
  | e :: es, aid, src =>
    if e.id = aid then { e with replacement := some src } :: es
    else e :: updateReplacement es aid src

/-- Outcomes of `WwiseSoundbank.replace_audio`: success, `KeyError` for an
unknown audio id, `FileNotFoundError` for a missing replacement file. -/
inductive ReplaceResult where
  | ok (b : Bank)
  | errUnknownAudioId
  | errReplacementNotFound
  deriving Repr, DecidableEq

/-- `WwiseSoundbank.replace_audio`: look the id up (an `AudioEntry` object
is always truthy, so the `if not entry` test is exactly the `None` test),
raise `KeyError` when absent, raise `FileNotFoundError` when the
replacement file does not exist, else record the source on the entry. -/
def replaceAudio (b : Bank) (aid : Nat) (src : ByteSource) : ReplaceResult :=
  match findAudioEntry b aid with
  | none => .errUnknownAudioId
  | some _ =>
    if src.present then .ok { b with entries := updateReplacement b.entries aid src }
    else .errReplacementNotFound

/-! ### Derived notions used to state the claims about saving -/

/-- Sum of the parsed index sizes. -/
def sumSizes (es : List AudioEntry) : Nat := (es.map fun e => e.size).sum

/-- Executable check that the index tiles the data blob: each entry starts
where the previous one ended. -/
def checkTiled : List AudioEntry → Nat → Bool
  | [], _ => true
  | e :: es, off => e.offset == off && checkTiled es (off + e.size)

/-- The payload chosen for an entry by `_serialize_audio_data`: the queued
replacement bytes when present, else the preloaded original payload. -/
def chosenPayload (e : AudioEntry) : List Nat :=
  match e.replacement with
  | some s => s.bytes?.getD []
  | none => e.data

/-- The size value `_rebuild_audio_index` writes for an entry whose
`final_size` succeeds. -/
def sizeField (e : AudioEntry) : Nat :=
  match e.replacement with
  | some s => (s.bytes?.getD []).length
  | none => e.size

/-- Sum of the size fields to be written for a list of entries. -/
def sumSizeFields (es : List AudioEntry) : Nat := (es.map sizeField).sum

/-- The (id, offset, size) triples `_rebuild_audio_index` computes, written
as a direct recursion for reasoning. -/
def specTriples : List AudioEntry → Nat → List (Nat × Nat × Nat)
  | [], _ => []
  | e :: es, off => (e.id, off, sizeField e) :: specTriples es (off + sizeField e)

/-! ## events_parser.py -/

/-- `Event` dataclass (audio_file_ids live in the resolver output here). -/
structure Event where
  id : Nat
  actions : List Nat
  deriving Repr, DecidableEq

/-- `Action` dataclass. -/
structure Action where
  actionId : Nat
  targetId : Option Nat
  actionType : Option Nat
  deriving Repr, DecidableEq

/-- `Sound` dataclass. -/
structure Sound where
  soundId : Nat
  sourceId : Option Nat
  deriving Repr, DecidableEq

/-- The five container flags of `_parse_modes_and_flags`. -/
structure Flags where
  usingWeight : Nat
  resetPlayListAtEachPlay : Nat
  isRestartBackward : Nat
  isContinuous : Nat
  isGlobal : Nat
  deriving Repr, DecidableEq

/-- `Container` dataclass.  `transitionTime` and `transitionMods` hold the
raw 4-byte slices read by `_parse_transition_times`: the source decodes
them as signed ints (version at most 38) or IEEE 754 floats (later
versions); no claim inspects the numeric value and floats are not
modelled, so the bytes are kept. -/
structure Container where
  id : Nat
  children : List Nat
  playlist : List (Nat × Int)
  loopCount : Option Int
  transitionTime : Option (List Nat)
  transitionMods : Option (List Nat × List Nat)
  avoidRepeatCount : Option Nat
  mode : Option Nat
  flags : Option Flags
  deriving Repr, DecidableEq

/-- Signed 16-bit read (format h). -/
def i16At (data : List Nat) (p : Nat) : Option Int := (u16At data p).map toInt16

/-- `BankParser._read_varint`: big-endian base-128 accumulation; each
iteration consumes one byte, and running off the buffer end raises
(`none`).  Fuelled by the remaining bytes, which always suffices. -/
def readVarintAux (data : List Nat) : Nat → Nat → Nat → Nat → Option (Nat × Nat)
  | 0, _, _, _ => none
  | fuel + 1, p, v, br =>
    match byteAt data p with
    | none => none
    | some b =>
      let v2 := v * 128 + b % 128
      if b < 128 then some (v2, br + 1)
      else readVarintAux data fuel (p + 1) v2 (br + 1)

def readVarint (data : List Nat) (p : Nat) : Option (Nat × Nat) :=
  readVarintAux data (data.length + 1 - p) p 0 0

/-- The action-ID list comprehension of `_parse_event`: `count` u32 reads
at consecutive positions, any out-of-bounds read raising. -/
def readU32List (data : List Nat) : Nat → Nat → Option (List Nat)
  | _, 0 => some []
  | p, n + 1 =>
    match u32At data p with
    | none => none
    | some v => (readU32List data (p + 4) n).map (v :: ·)

/-- `BankParser._parse_event`: unguarded reads (the declared record size is
never consulted), so truncation raises rather than yielding a partial
record. -/
def parseEvent (data : List Nat) (pos _size ver : Nat) : Option Event :=
  match u32At data pos with
  | none => none
  | some eid =>
    if ver ≤ 122 then
      match u32At data (pos + 4) with
      | none => none
      | some cnt => (readU32List data (pos + 8) cnt).map (Event.mk eid)
    else
      match readVarint data (pos + 4) with
      | none => none
      | some cb => (readU32List data (pos + 4 + cb.2) cb.1).map (Event.mk eid)

/-- `BankParser._parse_action`: outer `none` models a raised
`struct.error`; inner `none` models the `return None` for a truncated id
read. -/
def parseAction (data : List Nat) (pos size : Nat) : Option (Option Action) :=
  if data.length < pos + 4 then some none
  else
    let aid := bytesToNat ((data.drop pos).take 4)
    if pos + 4 + 2 ≤ pos + size then
      match u16At data (pos + 4) with
      | none => none
      | some ty =>
        if pos + 6 + 4 ≤ pos + size then
          match u32At data (pos + 6) with
          | none => none
          | some tgt => some (some ⟨aid, some tgt, some ty⟩)
        else some (some ⟨aid, none, some ty⟩)
    else
      if pos + 4 + 4 ≤ pos + size then
        match u32At data (pos + 4) with
        | none => none
        | some tgt => some (some ⟨aid, some tgt, none⟩)
      else some (some ⟨aid, none, none⟩)

/-- `BankParser._parse_sound`: id, then (if the record is large enough)
skip 4 bytes and 1 byte and read the source id at `pos + 9`. -/
def parseSound (data : List Nat) (pos size : Nat) : Option (Option Sound) :=
  if data.length < pos + 4 then some none
  else
    let sid := bytesToNat ((data.drop pos).take 4)
    if pos + size < pos + 4 + 8 then some (some ⟨sid, none⟩)
    else if pos + size < pos + 9 + 4 then some (some ⟨sid, none⟩)
    else
      match u32At data (pos + 9) with
      | none => none
      | some src => some (some ⟨sid, some src⟩)

/-- `BankParser._parse_loop_counts`. -/
def parseLoopCounts (data : List Nat) (pos endPos ver : Nat) :
    Option (Nat × Option Int) :=
  if endPos < pos + 2 then some (pos, none)
  else
    match i16At data pos with
    | none => none
    | some lc =>
      if ver ≤ 72 then some (pos + 2, some lc)
      else if endPos < pos + 2 + 4 then some (pos + 2, some lc)
      else some (pos + 6, some lc)

/-- `BankParser._parse_transition_times`: three 4-byte values with the same
positions and guards in both version branches; raw slices kept (see
`Container`). -/
def parseTransitionTimes (data : List Nat) (pos endPos : Nat) :
    Option (Nat × Option (List Nat) × Option (List Nat × List Nat)) :=
  if endPos < pos + 12 then some (pos, none, none)
  else if data.length < pos + 12 then none
  else some (pos + 12, some ((data.drop pos).take 4),
    some ((data.drop (pos + 4)).take 4, (data.drop (pos + 8)).take 4))

/-- `BankParser._parse_avoid_repeat_count`. -/
def parseAvoidRepeatCount (data : List Nat) (pos endPos : Nat) :
    Option (Nat × Option Nat) :=
  if endPos < pos + 2 then some (pos, none)
  else (u16At data pos).map fun c => (pos + 2, some c)

/-- `BankParser._parse_modes_and_flags`: reads three mode bytes (only the
third is kept), then five flag bytes (version at most 89) or one
bitvector byte. -/
def parseModesAndFlags (data : List Nat) (pos endPos ver : Nat) :
    Option (Nat × Option Nat × Option Flags) :=
  if endPos < pos + 3 then some (pos, none, none)
  else
    match byteAt data pos, byteAt data (pos + 1), byteAt data (pos + 2) with
    | some _, some _, some mo =>
      if ver ≤ 89 then
        if pos + 3 + 5 ≤ endPos then
          match byteAt data (pos + 3), byteAt data (pos + 4), byteAt data (pos + 5),
              byteAt data (pos + 6), byteAt data (pos + 7) with
          | some f1, some f2, some f3, some f4, some f5 =>
            some (pos + 8, some mo, some ⟨f1, f2, f3, f4, f5⟩)
          | _, _, _, _, _ => none
        else some (pos + 3, some mo, none)
      else
        if endPos < pos + 3 + 1 then some (pos + 3, some mo, none)
        else
          match byteAt data (pos + 3) with
          | none => none
          | some bv =>
            some (pos + 4, some mo,
              some ⟨bv % 2, bv / 2 % 2, bv / 4 % 2, bv / 8 % 2, bv / 16 % 2⟩)
    | _, _, _ => none

/-- The child-reading loop of `_parse_children`: a guard failure breaks,
keeping the ids read so far (the recursion prepends them). -/
def childLoop (data : List Nat) (endPos : Nat) : Nat → Nat → Option (List Nat)
  | 0, _ => some []
  | k + 1, p =>
    if endPos < p + 4 then some []
    else
      match u32At data p with
      | none => none
      | some c => (childLoop data endPos k (p + 4)).map (c :: ·)

/-- `BankParser._parse_children`. -/
def parseChildren (data : List Nat) (pos endPos : Nat) : Option (List Nat) :=
  if endPos < pos + 4 then some []
  else
    match u32At data pos with
    | none => none
    | some n => childLoop data endPos n (pos + 4)

/-- The item loop of `_parse_playlist`: id then weight, with the weight a
raw byte (version at most 56) or a signed 32-bit value. -/
def playlistLoop (data : List Nat) (endPos ver : Nat) :
    Nat → Nat → Option (List (Nat × Int))
  | 0, _ => some []
  | k + 1, p =>
    if endPos < p + 4 then some []
    else
      match u32At data p with
      | none => none
      | some itemId =>
        if ver ≤ 56 then
          if endPos < p + 4 + 1 then some []
          else
            match byteAt data (p + 4) with
            | none => none
            | some w =>
              (playlistLoop data endPos ver k (p + 5)).map ((itemId, (w : Int)) :: ·)
        else
          if endPos < p + 4 + 4 then some []
          else
            match u32At data (p + 4) with
            | none => none
            | some w =>
              (playlistLoop data endPos ver k (p + 8)).map ((itemId, toInt32 w) :: ·)

/-- `BankParser._parse_playlist`: u32 count for version at most 38, else
u16 count. -/
def parsePlaylist (data : List Nat) (pos endPos ver : Nat) :
    Option (List (Nat × Int)) :=
  if ver ≤ 38 then
    if endPos < pos + 4 then some []
    else
      match u32At data pos with
      | none => none
      | some n => playlistLoop data endPos ver n (pos + 4)
  else
    if endPos < pos + 2 then some []
    else
      match u16At data pos with
      | none => none
      | some n => playlistLoop data endPos ver n (pos + 2)

/-- `BankParser._parse_container` (`_parse_node_base_params` is a no-op in
the source; the `print` call is a side effect with no state). -/
def parseContainer (data : List Nat) (pos size ver : Nat) : Option (Option Container) :=
  if data.length < pos + 4 then some none
  else
    let cid := bytesToNat ((data.drop pos).take 4)
    let endPos := pos + size
    match parseLoopCounts data (pos + 4) endPos ver with
    | none => none
    | some (p1, loopCount) =>
      match parseTransitionTimes data p1 endPos with
      | none => none
      | some (p2, tt, tmods) =>
        match parseAvoidRepeatCount data p2 endPos with
        | none => none
        | some (p3, arc) =>
          match parseModesAndFlags data p3 endPos ver with
          | none => none
          | some (p4, mo, fl) =>
            let p5 := if 84 < size then p4 + (size - 84) else p4
            match parseChildren data p5 endPos with
            | none => none
            | some children =>
              let p6 := p5 + 8 + 4 * children.length
              match parsePlaylist data p6 endPos ver with
              | none => none
              | some playlist =>
                some (some ⟨cid, children, playlist, loopCount, tt, tmods,
                  arc, mo, fl⟩)

/-- `BankParser._read_object_header`: u32 type and u32 size for version at
most 48, else u8 type and u32 size. -/
def readObjectHeader (data : List Nat) (pos ver : Nat) : Option (Nat × Nat × Nat) :=
  if ver ≤ 48 then
    match u32At data pos, u32At data (pos + 4) with
    | some ty, some sz => some (ty, sz, pos + 8)
    | _, _ => none
  else
    match byteAt data pos, u32At data (pos + 1) with
    | some ty, some sz => some (ty, sz, pos + 5)
    | _, _ => none

/-- Python-dict insertion: replace the value of an existing key, else
append. -/
def insertAssoc {α : Type} : List (Nat × α) → Nat → α → List (Nat × α)
  | [], k, v => [(k, v)]
  | (k0, v0) :: rest, k, v =>
    if k0 = k then (k, v) :: rest else (k0, v0) :: insertAssoc rest k v

/-- Python-dict lookup. -/
def lookupAssoc {α : Type} (l : List (Nat × α)) (k : Nat) : Option α :=
  (l.find? fun p => p.1 = k).map fun p => p.2

/-- Python-set insertion over an insertion-ordered list model. -/
def insertSet (s : List Nat) (x : Nat) : List Nat := if x ∈ s then s else s ++ [x]

/-- `BankParser` state: version plus the hierarchy tables and the DIDX id
set. -/
structure EPState where
  version : Nat
  events : List Event
  actions : List (Nat × Action)
  sounds : List (Nat × Sound)
  containers : List (Nat × Container)
  audioFiles : List Nat
  deriving Repr, DecidableEq

/-- The dispatch on object type inside `_parse_hirc`. -/
def hircDispatch (data : List Nat) (ver ty dpos osize : Nat) (st : EPState) :
    Option EPState :=
  if ty = 4 then
    (parseEvent data dpos osize ver).map fun ev =>
      { st with events := st.events ++ [ev] }
  else if ty = 3 then
    (parseAction data dpos osize).map fun oa =>
      match oa with
      | some a => { st with actions := insertAssoc st.actions a.actionId a }
      | none => st
  else if ty = 2 then
    (parseSound data dpos osize).map fun os =>
      match os with
      | some sd => { st with sounds := insertAssoc st.sounds sd.soundId sd }
      | none => st
  else if ty = 5 then
    (parseContainer data dpos osize ver).map fun oc =>
      match oc with
      | some c => { st with containers := insertAssoc st.containers c.id c }
      | none => st
  else some st

/-- One record of the `_parse_hirc` loop: read the object header, run the
inner parser, and advance to `current_obj_data_pos + obj_data_size`
independent of what the inner parser consumed. -/
def hircStep (data : List Nat) (ver pos : Nat) (st : EPState) :
    Option (EPState × Nat) :=
  match readObjectHeader data pos ver with
  | none => none
  | some (ty, osize, dpos) =>
    (hircDispatch data ver ty dpos osize st).map fun st2 => (st2, dpos + osize)

/-- The record loop of `_parse_hirc`: after each record, a position past
the chunk end is clamped to it and the loop breaks. -/
def hircLoop (data : List Nat) (ver endPos : Nat) :
    Nat → Nat → EPState → Option (EPState × Nat)
  | 0, pos, st => some (st, pos)
  | n + 1, pos, st =>
    match hircStep data ver pos st with
    | none => none
    | some (st2, p2) =>
      if endPos < p2 then some (st2, endPos)
      else hircLoop data ver endPos n p2 st2

/-- `BankParser._parse_hirc`: u32 object count, then the record loop;
returns `end_pos`. -/
def parseHirc (data : List Nat) (ver pos size : Nat) (st : EPState) :
    Option (EPState × Nat) :=
  match u32At data pos with
  | none => none
  | some n => (hircLoop data ver (pos + size) n (pos + 4) st).map fun r =>
      (r.1, pos + size)

/-- The entry loop of `BankParser._parse_didx`: one u32 id per 12-byte
record, `size // 12` records. -/
def epDidxLoop (data : List Nat) (endPos : Nat) : Nat → Nat → Option (List Nat)
  | 0, _ => some []
  | k + 1, p =>
    if endPos < p + 12 then some []
    else
      match u32At data p with
      | none => none
      | some fid => (epDidxLoop data endPos k (p + 12)).map (fid :: ·)

/-- `BankParser._parse_didx`: the ids read, and the returned `end_pos`. -/
def epParseDidx (data : List Nat) (pos size : Nat) : Option (List Nat × Nat) :=
  (epDidxLoop data (pos + size) (size / 12) pos).map fun ids => (ids, pos + size)

/-- `BankParser._read_chunk_header`: 8 bytes or `(None, 0, len(data))`. -/
def readChunkHeader (data : List Nat) (pos : Nat) :
    Option (List Nat) × Nat × Nat :=
  if data.length < pos + 8 then (none, 0, data.length)
  else (some ((data.drop pos).take 4), bytesToNat ((data.drop (pos + 4)).take 4), pos + 8)

/-- The chunk loop of `BankParser.parse`: HIRC and DIDX are processed
wherever they appear; any other chunk is skipped by its declared size.
Fuelled; each iteration advances by at least 8 bytes or terminates. -/
def epChunkLoop (data : List Nat) (ver : Nat) : Nat → Nat → EPState → Option EPState
  | 0, _, _ => none
  | f + 1, pos, st =>
    if data.length ≤ pos then some st
    else
      match readChunkHeader data pos with
      | (cid, csize, p2) =>
        if cid = some tagHIRC then
          match parseHirc data ver p2 csize st with
          | none => none
          | some (st2, p3) => epChunkLoop data ver f p3 st2
        else if cid = some tagDIDX then
          match epParseDidx data p2 csize with
          | none => none
          | some (ids, p3) =>
            epChunkLoop data ver f p3
              { st with audioFiles := ids.foldl insertSet st.audioFiles }
        else epChunkLoop data ver f (p2 + csize) st

/-- `BankParser._parse_bkhd`: optional 12-byte AKBK envelope, mandatory
BKHD magic, version from the chunk payload; returns (version, position
after the chunk). -/
def epParseBkhd (data : List Nat) : Option (Nat × Nat) :=
  let pos := if data.take 4 = tagAKBK then 12 else 0
  if (data.drop pos).take 4 = tagBKHD then
    match u32At data (pos + 4), u32At data (pos + 8) with
    | some csize, some ver => some (ver, pos + 8 + csize)
    | _, _ => none
  else none

/-- `BankParser.parse`. -/
def epParse (data : List Nat) : Option EPState :=
  match epParseBkhd data with
  | none => none
  | some (ver, pos) =>
    epChunkLoop data ver (data.length + 2) pos ⟨ver, [], [], [], [], []⟩

/-! ### Event resolver (`link_audio_to_events` and helpers) -/

/-- `BankParser._link_sound_to_audio`. -/
def linkSoundToAudio (st : EPState) (sid : Nat) (acc : List Nat) : List Nat :=
  match lookupAssoc st.sounds sid with
  | some s =>
    match s.sourceId with
    | some src => if src ∈ st.audioFiles then insertSet acc src else acc
    | none => acc
  | none => acc

/-- The child list a container expands to: playlist ids, or the children
when the playlist is empty. -/
def containerChildIds (c : Container) : List Nat :=
  let pl := c.playlist.map fun item => item.1
  if pl.isEmpty then c.children else pl

/-- `BankParser._link_recursive`, fuelled by recursion depth: the source
recurses into container children with no visited set, so `none` at every
fuel models non-termination. -/
def linkRecursive (st : EPState) : Nat → Nat → List Nat → Option (List Nat)
  | 0, _, _ => none
  | fuel + 1, objId, acc =>
    if (lookupAssoc st.sounds objId).isSome then some (linkSoundToAudio st objId acc)
    else
      match lookupAssoc st.containers objId with
      | some c =>
        (containerChildIds c).foldlM (fun a cid => linkRecursive st fuel cid a) acc
      | none => some acc

/-- `BankParser._link_container_children`. -/
def linkContainerChildren (st : EPState) (fuel cid : Nat) (acc : List Nat) :
    Option (List Nat) :=
  match lookupAssoc st.containers cid with
  | some c =>
    (containerChildIds c).foldlM (fun a x => linkRecursive st fuel x a) acc
  | none => some acc

/-- `BankParser._process_event_reference`. -/
def processEventReference (st : EPState) (fuel targetId : Nat) (acc : List Nat) :
    Option (List Nat) :=
  match lookupAssoc st.actions targetId with
  | some a =>
    if a.actionType = some 1027 then
      match a.targetId with
      | some tgt =>
        if (lookupAssoc st.containers tgt).isSome then
          linkContainerChildren st fuel tgt acc
        else if (lookupAssoc st.sounds tgt).isSome then
          some (linkSoundToAudio st tgt acc)
        else some acc
      | none => some acc
    else some acc
  | none =>
    if (lookupAssoc st.containers targetId).isSome then
      linkContainerChildren st fuel targetId acc
    else if (lookupAssoc st.sounds targetId).isSome then
      some (linkSoundToAudio st targetId acc)
    else some (linkSoundToAudio st targetId acc)

/-- Resolution of one event: the loop body of `link_audio_to_events`,
starting from an empty set. -/
def resolveEvent (st : EPState) (fuel : Nat) (actionIds : List Nat) :
    Option (List Nat) :=
  actionIds.foldlM (fun acc t => processEventReference st fuel t acc) []

/-- `BankParser.link_audio_to_events`: the per-event resolved audio-ID
lists, in event order. -/
def linkAudioToEvents (st : EPState) (fuel : Nat) : Option (List (Nat × List Nat)) :=
  st.events.foldlM
    (fun acc ev => (resolveEvent st fuel ev.actions).map fun ids => acc ++ [(ev.id, ids)]) []

/-! ### Concrete banks used as counterexample and witness inputs -/

/-- A bank whose single index entry (id 1, offset 1, size 2) does not tile
its 4-byte DATA payload. -/
def c1ex : List Nat :=
  secBytes tagDIDX (enc32 1 ++ enc32 1 ++ enc32 2) ++
    secBytes tagDATA [170, 187, 204, 221]

/-- A well-tiled bank: BKHD payload, two entries (7, 0, 2) and (9, 2, 1)
over a 3-byte DATA payload, and 2 trailing bytes. -/
def c1wex : List Nat :=
  secBytes tagBKHD (enc32 140) ++
    secBytes tagDIDX (enc32 7 ++ enc32 0 ++ enc32 2 ++ enc32 9 ++ enc32 2 ++ enc32 1) ++
    secBytes tagDATA [10, 20, 30] ++ [1, 2]

/-- The bank value `parseBank c1wex` produces. -/
def c1wBank : Bank :=
  ⟨some (enc32 140), 3, true, [10, 20, 30], [1, 2],
    [⟨7, 0, 2, [10, 20], none⟩, ⟨9, 2, 1, [30], none⟩]⟩

/-- A bank whose entry declares size 4 but whose DATA payload holds only
2 bytes, so the preloaded payload is truncated. -/
def c2ex : List Nat :=
  secBytes tagDIDX (enc32 1 ++ enc32 0 ++ enc32 4) ++ (tagDATA ++ enc32 4 ++ [160, 161])

/-- An in-memory bank with one readable queued replacement and one
untouched entry, used to instantiate the replacement law. -/
def c2wBank : Bank :=
  ⟨none, 3, true, [10, 20, 30], [],
    [⟨7, 0, 2, [10, 20], some ⟨true, some [1, 2, 3]⟩⟩, ⟨9, 2, 1, [30], none⟩]⟩

/-- A bank whose entry declares size 10 over a 3-byte DATA payload. -/
def c3ex : List Nat :=
  secBytes tagDIDX (enc32 5 ++ enc32 0 ++ enc32 10) ++ (tagDATA ++ enc32 10 ++ [7, 8, 9])

/-- An in-memory bank used to instantiate the index law. -/
def c3wBank : Bank :=
  ⟨none, 4, true, [1, 2, 3, 4], [],
    [⟨11, 0, 3, [1, 2, 3], some ⟨true, some [9]⟩⟩, ⟨12, 3, 1, [4], none⟩]⟩

/-- A bank with a BKHD chunk and one audio entry, used to queue a
replacement that exists at queue time but fails to read at save time. -/
def c5ex : List Nat :=
  secBytes tagBKHD (enc32 140) ++ secBytes tagDIDX (enc32 1 ++ enc32 0 ++ enc32 1) ++
    secBytes tagDATA [42]

/-- Parse `c5ex`, queue an unreadable replacement for id 1, save. -/
def c5pipe : Option (List Nat × Bool) :=
  (parseBank c5ex).bind fun b =>
    match replaceAudio b 1 ⟨true, none⟩ with
    | .ok b2 => some (save b2)
    | _ => none

/-- An in-memory bank holding an unreadable queued replacement. -/
def c5wBank : Bank :=
  ⟨some [1], 1, true, [42], [], [⟨3, 0, 1, [42], some ⟨true, none⟩⟩]⟩

/-- A bank with one entry (id 1), target of a queue attempt whose
replacement file does not exist. -/
def c7ex : List Nat :=
  secBytes tagDIDX (enc32 1 ++ enc32 0 ++ enc32 1) ++ secBytes tagDATA [42]

/-- An in-memory bank with a single entry with id 1. -/
def c7wBank : Bank := ⟨none, 1, true, [42], [], [⟨1, 0, 1, [42], none⟩]⟩

/-- Containers 1 and 2 referencing each other as children: a cyclic
hierarchy. -/
def cycContainerA : Container := ⟨1, [2], [], none, none, none, none, none, none⟩

def cycContainerB : Container := ⟨2, [1], [], none, none, none, none, none, none⟩

/-- A parsed-hierarchy state with one event whose action list targets the
cyclic container 1. -/
def cycState : EPState :=
  ⟨141, [⟨100, [1]⟩], [], [], [(1, cycContainerA), (2, cycContainerB)], []⟩

/-- A HIRC payload (version over 48) with one Event record of declared
size 8 whose action count claims 5 actions, with the buffer ending right
after the count. -/
def c6ex : List Nat := enc32 1 ++ [4] ++ enc32 8 ++ enc32 500 ++ enc32 5

/-- A HIRC record: one Sound object of declared size 4 (id only). -/
def c6wex : List Nat := [2] ++ enc32 4 ++ enc32 77

/-- The initial parser state at version 141. -/
def epSt0 : EPState := ⟨141, [], [], [], [], []⟩

/-- The state after the Sound record of `c6wex`. -/
def c6wSt : EPState := ⟨141, [], [], [(77, ⟨77, none⟩)], [], []⟩

/-- A buffer that starts with a well-formed HIRC chunk and nothing else. -/
def c8ex : List Nat := tagHIRC ++ enc32 0

/-- A 13-byte Sound record: 4-byte id 5, then 5 skipped bytes, then the
4-byte source id 77 (9 bytes after the id). -/
def c9ex : List Nat := enc32 5 ++ [9, 9, 9, 9, 7] ++ enc32 77

/-- A 12-byte Sound record: 4-byte id 1 and 8 further bytes. -/
def c9wex : List Nat := enc32 1 ++ [0, 0, 0, 0, 0, 0, 0, 0]

/-- A 14-byte Sound record: 4-byte id 2, 5 skipped bytes, source id 90,
one extra byte. -/
def c9wex2 : List Nat := enc32 2 ++ [1, 1, 1, 1, 1] ++ enc32 90 ++ [6]

/-- A 26-byte DIDX payload: two 12-byte records and 2 remainder bytes. -/
def c10wd : List Nat :=
  enc32 21 ++ enc32 0 ++ enc32 4 ++ enc32 22 ++ enc32 4 ++ enc32 3 ++ [250, 251]

/-- A buffer holding `c10wd` as a chunk payload at position 8. -/
def c10wdata : List Nat := tagDIDX ++ enc32 26 ++ c10wd

/-! ## Basic byte lemmas -/

theorem bytesToNat_lt (l : List Nat) : bytesToNat l < 2 ^ (8 * l.length) := by
  induction l with
  | nil => simp [bytesToNat]
  | cons b t ih =>
    have hb : b % 256 < 256 := Nat.mod_lt _ (by norm_num)
    simp only [bytesToNat, List.foldr_cons, List.length_cons] at *
    rw [Nat.mul_succ, pow_add]
    have h8 : (2 : Nat) ^ 8 = 256 := by norm_num
    rw [h8]
    omega

theorem bytesToNat_lt32 (l : List Nat) (h : l.length ≤ 4) : bytesToNat l < 2 ^ 32 := by
  have h1 := bytesToNat_lt l
  have h2 : 2 ^ (8 * l.length) ≤ 2 ^ 32 :=
    Nat.pow_le_pow_right (by norm_num) (by omega)
  omega

theorem bytesToNat_enc32 (n : Nat) (h : n < 2 ^ 32) : bytesToNat (enc32 n) = n := by
  simp only [bytesToNat, enc32, List.foldr_cons, List.foldr_nil]
  norm_num
  omega

theorem enc32_length (n : Nat) : (enc32 n).length = 4 := rfl

/-! ## Section-scan step lemmas -/

theorem psa_short (f : Nat) (rem : List Nat) (bk dx : Option (List Nat))
    (h : rem.length < 4) :
    parseSectionsAux (f + 1) rem bk dx = some ⟨bk, dx, none, []⟩ := by
  simp [parseSectionsAux, h]

theorem psa_unknown (f : Nat) (rem : List Nat) (bk dx : Option (List Nat))
    (h4 : 4 ≤ rem.length)
    (hm : ¬(rem.take 4 = tagBKHD ∨ rem.take 4 = tagDIDX ∨ rem.take 4 = tagDATA)) :
    parseSectionsAux (f + 1) rem bk dx = some ⟨bk, dx, none, rem⟩ := by
  simp only [parseSectionsAux]
  rw [if_neg (by omega), if_neg hm]

theorem psa_data (f : Nat) (rem : List Nat) (bk dx : Option (List Nat))
    (hm : rem.take 4 = tagDATA) (h8 : 8 ≤ rem.length) :
    parseSectionsAux (f + 1) rem bk dx =
      some ⟨bk, dx, some (bytesToNat ((rem.drop 4).take 4), rem.drop 8),
        (rem.drop 8).drop (bytesToNat ((rem.drop 4).take 4))⟩ := by
  simp only [parseSectionsAux]
  rw [if_neg (by omega), if_pos (by right; right; exact hm), if_neg (by omega), if_pos hm]

theorem psa_bkhd (f : Nat) (rem : List Nat) (bk dx : Option (List Nat))
    (hm : rem.take 4 = tagBKHD) (h8 : 8 ≤ rem.length) :
    parseSectionsAux (f + 1) rem bk dx =
      parseSectionsAux f ((rem.drop 8).drop (bytesToNat ((rem.drop 4).take 4)))
        (some ((rem.drop 8).take (bytesToNat ((rem.drop 4).take 4)))) dx := by
  simp only [parseSectionsAux]
  rw [if_neg (by omega), if_pos (by left; exact hm), if_neg (by omega),
    if_neg (by rw [hm]; decide), if_pos hm]

theorem psa_didx (f : Nat) (rem : List Nat) (bk dx : Option (List Nat))
    (hm : rem.take 4 = tagDIDX) (h8 : 8 ≤ rem.length) :
    parseSectionsAux (f + 1) rem bk dx =
      parseSectionsAux f ((rem.drop 8).drop (bytesToNat ((rem.drop 4).take 4))) bk
        (some ((rem.drop 8).take (bytesToNat ((rem.drop 4).take 4)))) := by
  simp only [parseSectionsAux]
  rw [if_neg (by omega), if_pos (by right; left; exact hm), if_neg (by omega),
    if_neg (by rw [hm]; decide), if_neg (by rw [hm]; decide)]

theorem secBytes_assoc (tag payload rest : List Nat) :
    secBytes tag payload ++ rest = tag ++ (enc32 payload.length ++ (payload ++ rest)) := by
  simp [secBytes, List.append_assoc]

theorem sec_take4 (tag payload rest : List Nat) (ht : tag.length = 4) :
    (secBytes tag payload ++ rest).take 4 = tag := by
  rw [secBytes_assoc]; exact List.take_left' ht

theorem sec_size (tag payload rest : List Nat) (ht : tag.length = 4)
    (hp : payload.length < 2 ^ 32) :
    ((secBytes tag payload ++ rest).drop 4).take 4 = enc32 payload.length ∧
    bytesToNat (((secBytes tag payload ++ rest).drop 4).take 4) = payload.length := by
  rw [secBytes_assoc]
  have h1 : (tag ++ (enc32 payload.length ++ (payload ++ rest))).drop 4 =
      enc32 payload.length ++ (payload ++ rest) := List.drop_left' ht
  rw [h1]
  have h2 : (enc32 payload.length ++ (payload ++ rest)).take 4 = enc32 payload.length :=
    List.take_left' (enc32_length _)
  exact ⟨h2, by rw [h2]; exact bytesToNat_enc32 _ hp⟩

theorem sec_drop8 (tag payload rest : List Nat) (ht : tag.length = 4) :
    (secBytes tag payload ++ rest).drop 8 = payload ++ rest := by
  rw [secBytes_assoc]
  have h1 : (8 : Nat) = 4 + 4 := rfl
  rw [h1, ← List.drop_drop]
  rw [List.drop_left' ht, List.drop_left' (enc32_length _)]

theorem sec_length (tag payload : List Nat) (ht : tag.length = 4) :
    (secBytes tag payload).length = 8 + payload.length := by
  simp [secBytes, ht, enc32]
  omega

theorem psa_sec_bkhd (f : Nat) (h rest : List Nat) (bk dx : Option (List Nat))
    (hh : h.length < 2 ^ 32) :
    parseSectionsAux (f + 1) (secBytes tagBKHD h ++ rest) bk dx =
      parseSectionsAux f rest (some h) dx := by
  have ht : tagBKHD.length = 4 := rfl
  have h4 := sec_take4 tagBKHD h rest ht
  have hlen : 8 ≤ (secBytes tagBKHD h ++ rest).length := by
    rw [List.length_append, sec_length _ _ ht]; omega
  rw [psa_bkhd f _ bk dx h4 hlen, (sec_size tagBKHD h rest ht hh).2,
    sec_drop8 _ _ _ ht, List.take_left, List.drop_left]

theorem psa_sec_didx (f : Nat) (d rest : List Nat) (bk dx : Option (List Nat))
    (hd : d.length < 2 ^ 32) :
    parseSectionsAux (f + 1) (secBytes tagDIDX d ++ rest) bk dx =
      parseSectionsAux f rest bk (some d) := by
  have ht : tagDIDX.length = 4 := rfl
  have h4 := sec_take4 tagDIDX d rest ht
  have hlen : 8 ≤ (secBytes tagDIDX d ++ rest).length := by
    rw [List.length_append, sec_length _ _ ht]; omega
  rw [psa_didx f _ bk dx h4 hlen, (sec_size tagDIDX d rest ht hd).2,
    sec_drop8 _ _ _ ht, List.take_left, List.drop_left]

theorem psa_sec_data (f : Nat) (a tr : List Nat) (bk dx : Option (List Nat))
    (ha : a.length < 2 ^ 32) :
    parseSectionsAux (f + 1) (secBytes tagDATA a ++ tr) bk dx =
      some ⟨bk, dx, some (a.length, a ++ tr), tr⟩ := by
  have ht : tagDATA.length = 4 := rfl
  have h4 := sec_take4 tagDATA a tr ht
  have hlen : 8 ≤ (secBytes tagDATA a ++ tr).length := by
    rw [List.length_append, sec_length _ _ ht]; omega
  rw [psa_data f _ bk dx h4 hlen, (sec_size tagDATA a tr ht ha).2,
    sec_drop8 _ _ _ ht, List.drop_left]

/-- Size bounds carried by a successful section scan: stored payloads and
the declared DATA size are u32-bounded (payloads are `take`-slices of sizes
decoded from 4 bytes). -/
theorem psa_bounds (f : Nat) : ∀ (rem : List Nat) (bk dx : Option (List Nat)) (s : Sections),
    parseSectionsAux f rem bk dx = some s →
    (∀ h, bk = some h → h.length < 2 ^ 32) →
    (∀ d, dx = some d → d.length < 2 ^ 32) →
    (∀ h, s.bkhd = some h → h.length < 2 ^ 32) ∧
    (∀ d, s.didx = some d → d.length < 2 ^ 32) ∧
    (∀ sz dr, s.dataChunk = some (sz, dr) → sz < 2 ^ 32) := by
  induction f with
  | zero => intro rem bk dx s hp; simp [parseSectionsAux] at hp
  | succ f ih =>
    intro rem bk dx s hp hbk hdx
    by_cases h4 : rem.length < 4
    · rw [psa_short f rem bk dx h4] at hp
      cases hp
      exact ⟨hbk, hdx, by intro sz dr h; simp at h⟩
    · have hsz : bytesToNat ((rem.drop 4).take 4) < 2 ^ 32 :=
        bytesToNat_lt32 _ (List.length_take_le _ _)
      by_cases hm : rem.take 4 = tagBKHD ∨ rem.take 4 = tagDIDX ∨ rem.take 4 = tagDATA
      · by_cases h8 : rem.length < 8
        · simp only [parseSectionsAux] at hp
          rw [if_neg (by omega), if_pos hm, if_pos h8] at hp
          cases hp
        · rcases hm with hm | hm | hm
          · rw [psa_bkhd f rem bk dx hm (by omega)] at hp
            exact ih _ _ _ _ hp
              (by intro h hh; cases hh
                  exact lt_of_le_of_lt (List.length_take_le _ _) hsz) hdx
          · rw [psa_didx f rem bk dx hm (by omega)] at hp
            exact ih _ _ _ _ hp hbk
              (by intro d hd; cases hd
                  exact lt_of_le_of_lt (List.length_take_le _ _) hsz)
          · rw [psa_data f rem bk dx hm (by omega)] at hp
            cases hp
            refine ⟨hbk, hdx, ?_⟩
            intro sz dr h
            simp only [Option.some.injEq, Prod.mk.injEq] at h
            omega
      · rw [psa_unknown f rem bk dx (by omega) hm] at hp
        cases hp
        exact ⟨hbk, hdx, by intro sz dr h; simp at h⟩

/-! ## DIDX decoding lemmas -/

theorem didxTriplesAux_nil (f : Nat) : didxTriplesAux f [] = [] := by
  cases f <;> simp [didxTriplesAux]

theorem didxTriplesAux_length (f : Nat) : ∀ d : List Nat, d.length ≤ f →
    (didxTriplesAux f d).length = d.length / 12 := by
  induction f with
  | zero => intro d h; simp only [didxTriplesAux, List.length_nil]; omega
  | succ f ih =>
    intro d h
    by_cases h12 : 12 ≤ d.length
    · simp only [didxTriplesAux, if_pos h12, List.length_cons]
      rw [ih (d.drop 12) (by simp [List.length_drop]; omega)]
      simp [List.length_drop]
      omega
    · simp only [didxTriplesAux, if_neg h12]
      simp
      omega

theorem didxTriples_length (d : List Nat) : (didxTriples d).length = d.length / 12 :=
  didxTriplesAux_length d.length d le_rfl

theorem didxTriplesAux_getElem? (f : Nat) : ∀ (d : List Nat) (i : Nat), d.length ≤ f →
    i < d.length / 12 →
    (didxTriplesAux f d)[i]? =
      some (bytesToNat ((d.drop (12 * i)).take 4),
        bytesToNat ((d.drop (12 * i + 4)).take 4),
        bytesToNat ((d.drop (12 * i + 8)).take 4)) := by
  induction f with
  | zero => intro d i h hi; omega
  | succ f ih =>
    intro d i h hi
    have h12 : 12 ≤ d.length := by omega
    simp only [didxTriplesAux, if_pos h12]
    cases i with
    | zero => simp
    | succ i =>
      rw [List.getElem?_cons_succ]
      rw [ih (d.drop 12) i (by simp [List.length_drop]; omega)
        (by simp [List.length_drop]; omega)]
      rw [List.drop_drop, List.drop_drop, List.drop_drop]
      ring_nf

theorem didxTriples_getElem? (d : List Nat) (i : Nat) (hi : i < d.length / 12) :
    (didxTriples d)[i]? =
      some (bytesToNat ((d.drop (12 * i)).take 4),
        bytesToNat ((d.drop (12 * i + 4)).take 4),
        bytesToNat ((d.drop (12 * i + 8)).take 4)) :=
  didxTriplesAux_getElem? d.length d i le_rfl hi

theorem encodeTriples_length (ts : List (Nat × Nat × Nat)) :
    (encodeTriples ts).length = 12 * ts.length := by
  induction ts with
  | nil => simp [encodeTriples]
  | cons t ts ih =>
    simp only [encodeTriples, List.map_cons, List.flatten_cons, List.length_append,
      List.length_cons] at *
    simp [enc32] at *
    omega

theorem didxTriplesAux_encode : ∀ (ts : List (Nat × Nat × Nat)) (f : Nat),
    ts.length ≤ f →
    (∀ t ∈ ts, t.1 < 2 ^ 32 ∧ t.2.1 < 2 ^ 32 ∧ t.2.2 < 2 ^ 32) →
    didxTriplesAux f (encodeTriples ts) = ts := by
  intro ts
  induction ts with
  | nil => intro f _ _; simp [encodeTriples, didxTriplesAux_nil]
  | cons t ts ih =>
    intro f hf hb
    obtain ⟨g, rfl⟩ : ∃ g, f = g + 1 := ⟨f - 1, by simp at hf; omega⟩
    have hrec : encodeTriples (t :: ts) =
        enc32 t.1 ++ (enc32 t.2.1 ++ (enc32 t.2.2 ++ encodeTriples ts)) := by
      simp [encodeTriples, List.append_assoc]
    have hlen : 12 ≤ (encodeTriples (t :: ts)).length := by
      rw [encodeTriples_length]; simp only [List.length_cons]; omega
    obtain ⟨hb1, hb2, hb3⟩ := hb t (by simp)
    simp only [didxTriplesAux, if_pos hlen]
    rw [hrec]
    have d4 : (enc32 t.1 ++ (enc32 t.2.1 ++ (enc32 t.2.2 ++ encodeTriples ts))).drop 4 =
        enc32 t.2.1 ++ (enc32 t.2.2 ++ encodeTriples ts) := List.drop_left' (enc32_length _)
    have d8 : (enc32 t.1 ++ (enc32 t.2.1 ++ (enc32 t.2.2 ++ encodeTriples ts))).drop 8 =
        enc32 t.2.2 ++ encodeTriples ts := by
      have : (8 : Nat) = 4 + 4 := rfl
      rw [this, ← List.drop_drop, d4, List.drop_left' (enc32_length _)]
    have d12 : (enc32 t.1 ++ (enc32 t.2.1 ++ (enc32 t.2.2 ++ encodeTriples ts))).drop 12 =
        encodeTriples ts := by
      have h12 : (12 : Nat) = 8 + 4 := rfl
      rw [h12, ← List.drop_drop, d8, List.drop_left' (enc32_length _)]
    rw [List.take_left' (enc32_length _), d4, List.take_left' (enc32_length _), d8,
      List.take_left' (enc32_length _), d12]
    rw [bytesToNat_enc32 _ hb1, bytesToNat_enc32 _ hb2, bytesToNat_enc32 _ hb3]
    rw [ih g (by simp at hf; omega) (fun u hu => hb u (by simp [hu]))]

theorem didxTriples_encode (ts : List (Nat × Nat × Nat))
    (hb : ∀ t ∈ ts, t.1 < 2 ^ 32 ∧ t.2.1 < 2 ^ 32 ∧ t.2.2 < 2 ^ 32) :
    didxTriples (encodeTriples ts) = ts := by
  apply didxTriplesAux_encode ts (encodeTriples ts).length _ hb
  rw [encodeTriples_length]
  omega

theorem didxTriples_bounds : ∀ (f : Nat) (d : List Nat) (t : Nat × Nat × Nat),
    t ∈ didxTriplesAux f d → t.1 < 2 ^ 32 ∧ t.2.1 < 2 ^ 32 ∧ t.2.2 < 2 ^ 32 := by
  intro f
  induction f with
  | zero => intro d t ht; simp [didxTriplesAux] at ht
  | succ f ih =>
    intro d t ht
    by_cases h12 : 12 ≤ d.length
    · simp only [didxTriplesAux, if_pos h12, List.mem_cons] at ht
      rcases ht with rfl | ht
      · exact ⟨bytesToNat_lt32 _ (List.length_take_le _ _),
          bytesToNat_lt32 _ (List.length_take_le _ _),
          bytesToNat_lt32 _ (List.length_take_le _ _)⟩
      · exact ih _ _ ht
    · simp [didxTriplesAux, if_neg h12] at ht

/-! ## Rebuild / serialize characterisation -/

theorem finalSize_eq_sizeField (e : AudioEntry) (h : (finalSize e).isSome = true) :
    finalSize e = some (sizeField e) := by
  cases hr : e.replacement with
  | none => simp [finalSize, sizeField, hr]
  | some s =>
    cases hb : s.bytes? with
    | none => simp [finalSize, hr, hb] at h
    | some bs => simp [finalSize, sizeField, hr, hb]

theorem sizeField_chosen (e : AudioEntry)
    (hf : e.replacement = none → e.data.length = e.size) :
    sizeField e = (chosenPayload e).length := by
  cases hr : e.replacement with
  | none => simp [sizeField, chosenPayload, hr, hf hr]
  | some s => cases hb : s.bytes? <;> simp [sizeField, chosenPayload, hr, hb]

theorem rebuildTriples_spec : ∀ (es : List AudioEntry) (off : Nat),
    (∀ e ∈ es, (finalSize e).isSome = true) →
    ∃ ts, rebuildTriples es off = some ts ∧ ts.length = es.length ∧
      ∀ i e, es[i]? = some e →
        ts[i]? = some (e.id, off + ((ts.take i).map fun t => t.2.2).sum, sizeField e) := by
  intro es
  induction es with
  | nil =>
    intro off _
    exact ⟨[], rfl, rfl, by intro i e h; simp at h⟩
  | cons e es ih =>
    intro off hr
    obtain ⟨ts, hts, hlen, hget⟩ := ih (off + sizeField e) fun u hu => hr u (by simp [hu])
    refine ⟨(e.id, off, sizeField e) :: ts, ?_, by simp [hlen], ?_⟩
    · simp only [rebuildTriples, finalSize_eq_sizeField e (hr e (by simp)), hts]
      rfl
    · intro i u hu
      cases i with
      | zero =>
        simp only [List.getElem?_cons_zero, Option.some.injEq] at hu
        subst hu
        simp
      | succ i =>
        rw [List.getElem?_cons_succ] at hu
        rw [List.getElem?_cons_succ, hget i u hu, List.take_succ_cons, List.map_cons,
          List.sum_cons, Nat.add_assoc]

theorem serializeAudioData_spec : ∀ es : List AudioEntry,
    (∀ e ∈ es, (finalSize e).isSome = true) →
    serializeAudioData es = some (es.map chosenPayload).flatten := by
  intro es
  induction es with
  | nil => intro _; rfl
  | cons e es ih =>
    intro hr
    have hrec := ih fun u hu => hr u (by simp [hu])
    cases he : e.replacement with
    | none => simp [serializeAudioData, he, hrec, chosenPayload]
    | some s =>
      cases hb : s.bytes? with
      | none => have := hr e (by simp); simp [finalSize, he, hb] at this
      | some bs => simp [serializeAudioData, he, hb, hrec, chosenPayload]

theorem flatten_slice : ∀ (ls : List (List Nat)) (i : Nat) (l : List Nat),
    ls[i]? = some l →
    (ls.flatten.drop (((ls.take i).map List.length).sum)).take l.length = l := by
  intro ls
  induction ls with
  | nil => intro i l h; simp at h
  | cons hd tl ih =>
    intro i l h
    cases i with
    | zero =>
      simp only [List.getElem?_cons_zero, Option.some.injEq] at h
      subst h
      simp [List.take_left]
    | succ i =>
      rw [List.getElem?_cons_succ] at h
      rw [List.take_succ_cons, List.map_cons, List.sum_cons, List.flatten_cons]
      rw [← List.drop_drop, List.drop_left]
      exact ih i l h

theorem mkEntries_replacement (ts : List (Nat × Nat × Nat)) (dr : List Nat) :
    ∀ e ∈ mkEntries ts dr, e.replacement = none := by
  intro e he
  simp only [mkEntries, List.mem_map] at he
  obtain ⟨t, _, rfl⟩ := he
  rfl

theorem mkEntries_data (ts : List (Nat × Nat × Nat)) (dr : List Nat) :
    ∀ e ∈ mkEntries ts dr, e.data = (dr.drop e.offset).take e.size := by
  intro e he
  simp only [mkEntries, List.mem_map] at he
  obtain ⟨t, _, rfl⟩ := he
  rfl

theorem mkEntries_proj (ts : List (Nat × Nat × Nat)) (dr : List Nat) :
    (mkEntries ts dr).map (fun e => (e.id, e.offset, e.size)) = ts := by
  induction ts with
  | nil => rfl
  | cons t ts ih =>
    simp only [mkEntries, List.map_cons] at ih ⊢
    rw [ih]

theorem rebuildTriples_tiled : ∀ (es : List AudioEntry) (off : Nat),
    (∀ e ∈ es, e.replacement = none) → checkTiled es off = true →
    rebuildTriples es off = some (es.map fun e => (e.id, e.offset, e.size)) := by
  intro es
  induction es with
  | nil => intro off _ _; rfl
  | cons e es ih =>
    intro off hrep ht
    simp only [checkTiled, Bool.and_eq_true, beq_iff_eq] at ht
    have he : finalSize e = some e.size := by
      simp [finalSize, hrep e (by simp)]
    simp only [rebuildTriples, he, ih (off + e.size) (fun u hu => hrep u (by simp [hu])) ht.2,
      List.map_cons, ht.1]
    rfl

theorem entries_tiled_concat : ∀ (es : List AudioEntry) (off : Nat) (dr : List Nat),
    checkTiled es off = true →
    (∀ e ∈ es, e.data = (dr.drop e.offset).take e.size) →
    (es.map fun e => e.data).flatten = (dr.drop off).take (sumSizes es) := by
  intro es
  induction es with
  | nil => intro off dr _ _; simp [sumSizes]
  | cons e es ih =>
    intro off dr ht hd
    simp only [checkTiled, Bool.and_eq_true, beq_iff_eq] at ht
    rw [List.map_cons, List.flatten_cons, ih (off + e.size) dr ht.2
      (fun u hu => hd u (by simp [hu]))]
    rw [hd e (by simp), ht.1]
    simp only [sumSizes, List.map_cons, List.sum_cons]
    rw [List.take_add, List.drop_drop]

theorem mkEntries_idsize (ts : List (Nat × Nat × Nat)) (dr : List Nat) :
    (mkEntries ts dr).map (fun e => (e.id, e.size)) = ts.map fun t => (t.1, t.2.2) := by
  simp only [mkEntries, List.map_map]
  rfl

/-! ## Reparsing a saved bank -/

theorem psa_saved_none (D a tr : List Nat) (hD : D.length < 2 ^ 32)
    (ha : a.length < 2 ^ 32) :
    parseSections (secBytes tagDIDX D ++ (secBytes tagDATA a ++ tr)) =
      some ⟨none, some D, some (a.length, a ++ tr), tr⟩ := by
  have h1 : 1 ≤ (secBytes tagDIDX D ++ (secBytes tagDATA a ++ tr)).length := by
    rw [List.length_append, sec_length _ _ (by rfl)]
    omega
  obtain ⟨k, hk⟩ : ∃ k, (secBytes tagDIDX D ++ (secBytes tagDATA a ++ tr)).length + 1 =
      k + 2 := ⟨(secBytes tagDIDX D ++ (secBytes tagDATA a ++ tr)).length - 1, by omega⟩
  rw [parseSections, hk]
  have e2 : k + 2 = (k + 1) + 1 := rfl
  rw [e2, psa_sec_didx _ _ _ _ _ hD, psa_sec_data _ _ _ _ _ ha]

theorem psa_saved_some (h D a tr : List Nat) (hh : h.length < 2 ^ 32)
    (hD : D.length < 2 ^ 32) (ha : a.length < 2 ^ 32) :
    parseSections (secBytes tagBKHD h ++
        (secBytes tagDIDX D ++ (secBytes tagDATA a ++ tr))) =
      some ⟨some h, some D, some (a.length, a ++ tr), tr⟩ := by
  have h2 : 2 ≤ (secBytes tagBKHD h ++
      (secBytes tagDIDX D ++ (secBytes tagDATA a ++ tr))).length := by
    rw [List.length_append, sec_length _ _ (by rfl)]
    omega
  obtain ⟨k, hk⟩ : ∃ k, (secBytes tagBKHD h ++
      (secBytes tagDIDX D ++ (secBytes tagDATA a ++ tr))).length + 1 = k + 3 :=
    ⟨(secBytes tagBKHD h ++ (secBytes tagDIDX D ++ (secBytes tagDATA a ++ tr))).length - 2,
      by omega⟩
  rw [parseSections, hk]
  have e3 : k + 3 = ((k + 1) + 1) + 1 := rfl
  rw [e3, psa_sec_bkhd _ _ _ _ _ hh, psa_sec_didx _ _ _ _ _ hD,
    psa_sec_data _ _ _ _ _ ha]

theorem psa_saved (hdr? : Option (List Nat)) (D a tr : List Nat)
    (hh : ∀ h, hdr? = some h → h.length < 2 ^ 32)
    (hD : D.length < 2 ^ 32) (ha : a.length < 2 ^ 32) :
    parseSections ((match hdr? with
        | some h => secBytes tagBKHD h
        | none => []) ++ secBytes tagDIDX D ++ secBytes tagDATA a ++ tr) =
      some ⟨hdr?, some D, some (a.length, a ++ tr), tr⟩ := by
  cases hdr? with
  | none =>
    show parseSections ([] ++ secBytes tagDIDX D ++ secBytes tagDATA a ++ tr) = _
    rw [List.nil_append, List.append_assoc]
    exact psa_saved_none D a tr hD ha
  | some h =>
    show parseSections (secBytes tagBKHD h ++ secBytes tagDIDX D ++
      secBytes tagDATA a ++ tr) = _
    rw [List.append_assoc, List.append_assoc]
    exact psa_saved_some h D a tr (hh h rfl) hD ha

/-! ## Claim C1 -/

/-- C1 (amended): for every bank file that parses successfully and whose
index tiles the data chunk (each offset is the sum of the preceding sizes
and the sizes sum to the declared data size), parsing the bytes produced by
saving with no replacements queued yields the same IDs and sizes in the
same order, the same header-chunk payload, a byte-identical data blob, and
byte-identical trailing bytes. -/
theorem c1_roundtrip_tiled (B : List Nat) (b : Bank)
    (hp : parseBank B = some b)
    (htile : checkTiled b.entries 0 = true)
    (hsum : sumSizes b.entries = b.dataSize) :
    ∃ b2, parseBank (save b).1 = some b2 ∧ (save b).2 = true ∧
      b2.entries.map (fun e => (e.id, e.size)) = b.entries.map (fun e => (e.id, e.size)) ∧
      b2.bkhd = b.bkhd ∧ b2.dataBlob = b.dataBlob ∧ b2.trailing = b.trailing := by
  obtain ⟨bbk, bsz, bhd, bblob, btr, bent⟩ := b
  unfold parseBank at hp
  cases hps : parseSections B with
  | none => rw [hps] at hp; cases hp
  | some s =>
    simp only [hps] at hp
    have hps' : parseSectionsAux (B.length + 1) B none none = some s := hps
    have hbounds := psa_bounds (B.length + 1) B none none s hps'
      (by intro h hh; cases hh) (by intro d hd; cases hd)
    cases hdx : s.didx with
    | none => simp only [hdx] at hp; exact Option.noConfusion hp
    | some d =>
      simp only [hdx] at hp
      have hd32 : d.length < 2 ^ 32 := hbounds.2.1 d hdx
      have htb : ∀ t ∈ didxTriples d, t.1 < 2 ^ 32 ∧ t.2.1 < 2 ^ 32 ∧ t.2.2 < 2 ^ 32 :=
        fun t ht => didxTriples_bounds d.length d t ht
      have hD32 : (encodeTriples (didxTriples d)).length < 2 ^ 32 := by
        rw [encodeTriples_length, didxTriples_length]
        have hdm := Nat.div_mul_le_self d.length 12
        omega
      cases hdc : s.dataChunk with
      | some p =>
        obtain ⟨sz, dr⟩ := p
        simp only [hdc, Option.some.injEq, Bank.mk.injEq] at hp
        obtain ⟨rfl, rfl, rfl, rfl, rfl, rfl⟩ := hp
        simp only [Bank.entries, Bank.dataSize, Bank.bkhd, Bank.dataBlob, Bank.trailing]
          at htile hsum ⊢
        have hsz32 : sz < 2 ^ 32 := hbounds.2.2 sz dr hdc
        have hA32 : (dr.take sz).length < 2 ^ 32 :=
          lt_of_le_of_lt (List.length_take_le _ _) hsz32
        have hrep := mkEntries_replacement (didxTriples d) dr
        have hdat := mkEntries_data (didxTriples d) dr
        have hrt : rebuildTriples (mkEntries (didxTriples d) dr) 0 =
            some (didxTriples d) := by
          rw [rebuildTriples_tiled _ 0 hrep htile, mkEntries_proj]
        have hrai : rebuildAudioIndex (mkEntries (didxTriples d) dr) =
            some (encodeTriples (didxTriples d)) := by
          rw [rebuildAudioIndex, hrt]
          rfl
        have hfs : ∀ e ∈ mkEntries (didxTriples d) dr, (finalSize e).isSome = true := by
          intro e he
          simp [finalSize, hrep e he]
        have hsad : serializeAudioData (mkEntries (didxTriples d) dr) =
            some (dr.take sz) := by
          rw [serializeAudioData_spec _ hfs,
            List.map_congr_left (fun e he => by rw [chosenPayload, hrep e he]),
            entries_tiled_concat _ 0 dr htile hdat, List.drop_zero, hsum]
        simp only [save, headerOut, hrai, hsad]
        have hparse2 : parseBank ((match s.bkhd with
              | some h => secBytes tagBKHD h
              | none => []) ++ secBytes tagDIDX (encodeTriples (didxTriples d)) ++
              secBytes tagDATA (dr.take sz) ++ dr.drop sz) =
            some ⟨s.bkhd, (dr.take sz).length, true, dr.take sz, dr.drop sz,
              mkEntries (didxTriples d) (dr.take sz ++ dr.drop sz)⟩ := by
          unfold parseBank
          simp only [psa_saved s.bkhd (encodeTriples (didxTriples d)) (dr.take sz)
            (dr.drop sz) hbounds.1 hD32 hA32, didxTriples_encode _ htb, List.take_left,
            List.drop_left]
        exact ⟨_, hparse2, trivial, by simp only [mkEntries_idsize], rfl, rfl, rfl⟩
      | none =>
        simp only [hdc] at hp
        by_cases hemp : (didxTriples d).isEmpty
        · rw [if_pos hemp] at hp
          simp only [Option.some.injEq, Bank.mk.injEq] at hp
          obtain ⟨rfl, rfl, rfl, rfl, rfl, rfl⟩ := hp
          simp only [Bank.entries, Bank.dataSize, Bank.bkhd, Bank.dataBlob, Bank.trailing]
          have hrai0 : rebuildAudioIndex ([] : List AudioEntry) = some [] := rfl
          have hsad0 : serializeAudioData ([] : List AudioEntry) = some [] := rfl
          simp only [save, headerOut, hrai0, hsad0]
          have hnil : didxTriples ([] : List Nat) = [] := rfl
          have hparse2 : parseBank ((match s.bkhd with
                | some h => secBytes tagBKHD h
                | none => []) ++ secBytes tagDIDX [] ++
                secBytes tagDATA [] ++ s.trailing) =
              some ⟨s.bkhd, 0, true, [], s.trailing, []⟩ := by
            unfold parseBank
            simp only [psa_saved s.bkhd ([] : List Nat) ([] : List Nat) s.trailing
              hbounds.1 (by norm_num) (by norm_num), hnil, List.length_nil,
              List.nil_append, List.take_zero, List.drop_zero, mkEntries, List.map_nil]
          exact ⟨_, hparse2, trivial, rfl, rfl, rfl, rfl⟩
        · rw [if_neg hemp] at hp
          exact Option.noConfusion hp

/-- C1 counterexample: `c1ex` parses successfully with no replacements, yet
saving and reparsing changes the data blob (the index does not tile the
blob), so the round-trip identity claimed for every parsed bank fails. -/
theorem c1_counterexample :
    ((parseBank c1ex).map Bank.dataBlob) = some [170, 187, 204, 221] ∧
    ((parseBank c1ex).bind fun b => (parseBank (save b).1).map Bank.dataBlob) =
      some [187, 204] ∧
    ((parseBank c1ex).map fun b => b.entries.map fun e => (e.id, e.size)) =
      some [(1, 2)] ∧
    ((parseBank c1ex).bind fun b =>
      (parseBank (save b).1).map fun b2 => b2.entries.map fun e => (e.id, e.size)) =
      some [(1, 2)] ∧
    ((parseBank c1ex).map Bank.bkhd) = some none ∧
    ((parseBank c1ex).bind fun b => (parseBank (save b).1).map Bank.bkhd) =
      some none ∧
    ((parseBank c1ex).map Bank.trailing) = some [] ∧
    ((parseBank c1ex).bind fun b => (parseBank (save b).1).map Bank.trailing) =
      some [] ∧
    ((parseBank c1ex).map fun b => b.entries.map fun e => e.replacement) =
      some [none] ∧
    ([170, 187, 204, 221] : List Nat) ≠ [187, 204] := by
  decide

/-- C1 witness: the tiled bank `c1wex` satisfies the hypotheses and the
round-trip conclusion. -/
theorem c1_roundtrip_tiled_witness :
    parseBank c1wex = some c1wBank ∧ checkTiled c1wBank.entries 0 = true ∧
      sumSizes c1wBank.entries = c1wBank.dataSize ∧
      ∃ b2, parseBank (save c1wBank).1 = some b2 ∧ (save c1wBank).2 = true ∧
        b2.entries.map (fun e => (e.id, e.size)) =
          c1wBank.entries.map (fun e => (e.id, e.size)) ∧
        b2.bkhd = c1wBank.bkhd ∧ b2.dataBlob = c1wBank.dataBlob ∧
        b2.trailing = c1wBank.trailing :=
  ⟨by decide, by decide, by decide,
    c1_roundtrip_tiled c1wex c1wBank (by decide) (by decide) (by decide)⟩

/-! ## Claims C2 and C3 -/

theorem rebuildTriples_eq_spec : ∀ (es : List AudioEntry) (off : Nat),
    (∀ e ∈ es, (finalSize e).isSome = true) →
    rebuildTriples es off = some (specTriples es off) := by
  intro es
  induction es with
  | nil => intro off _; rfl
  | cons e es ih =>
    intro off hr
    simp only [rebuildTriples, finalSize_eq_sizeField e (hr e (by simp)), specTriples,
      ih (off + sizeField e) (fun u hu => hr u (by simp [hu]))]
    rfl

theorem specTriples_length : ∀ (es : List AudioEntry) (off : Nat),
    (specTriples es off).length = es.length := by
  intro es
  induction es with
  | nil => intro off; rfl
  | cons e es ih => intro off; simp [specTriples, ih]

theorem specTriples_sizes : ∀ (es : List AudioEntry) (off : Nat),
    (specTriples es off).map (fun t => t.2.2) = es.map sizeField := by
  intro es
  induction es with
  | nil => intro off; rfl
  | cons e es ih => intro off; simp [specTriples, ih]

theorem specTriples_getElem? : ∀ (es : List AudioEntry) (off i : Nat) (e : AudioEntry),
    es[i]? = some e →
    (specTriples es off)[i]? = some (e.id, off + sumSizeFields (es.take i), sizeField e) := by
  intro es
  induction es with
  | nil => intro off i e h; simp at h
  | cons e0 es ih =>
    intro off i e h
    cases i with
    | zero =>
      simp only [List.getElem?_cons_zero, Option.some.injEq] at h
      subst h
      simp [specTriples, sumSizeFields]
    | succ i =>
      rw [List.getElem?_cons_succ] at h
      simp only [specTriples, List.getElem?_cons_succ]
      rw [ih (off + sizeField e0) i e h, List.take_succ_cons]
      simp only [sumSizeFields, List.map_cons, List.sum_cons, Nat.add_assoc]

theorem flatten_len (ls : List (List Nat)) :
    ls.flatten.length = (ls.map List.length).sum := by
  induction ls with
  | nil => rfl
  | cons l ls ih => simp [ih]

/-- C2 (amended): for every bank whose index entries' payloads are fully
present in the file (preloaded data has the declared length) and whose
queued replacements are all readable, the saved output's payload for each
index position, sliced at the written offset and written size, equals the
replacement bytes when one was queued and the original payload otherwise;
and the written size field equals the length of that chosen payload. -/
theorem c2_replacement_law (b : Bank)
    (hr : ∀ e ∈ b.entries, (finalSize e).isSome = true)
    (hf : ∀ e ∈ b.entries, e.replacement = none → e.data.length = e.size) :
    ∃ ts ad, rebuildTriples b.entries 0 = some ts ∧
      serializeAudioData b.entries = some ad ∧
      ∀ i e, b.entries[i]? = some e →
        ts[i]? = some (e.id, sumSizeFields (b.entries.take i), (chosenPayload e).length) ∧
        (ad.drop (sumSizeFields (b.entries.take i))).take (chosenPayload e).length =
          chosenPayload e := by
  refine ⟨specTriples b.entries 0, (b.entries.map chosenPayload).flatten,
    rebuildTriples_eq_spec b.entries 0 hr, serializeAudioData_spec b.entries hr, ?_⟩
  intro i e he
  have hmem : e ∈ b.entries := by
    have h1 := List.getElem?_mem he
    exact h1
  have hsz : sizeField e = (chosenPayload e).length :=
    sizeField_chosen e (hf e hmem)
  constructor
  · rw [specTriples_getElem? b.entries 0 i e he, Nat.zero_add, hsz]
  · have hsl := flatten_slice (b.entries.map chosenPayload) i (chosenPayload e)
      (by rw [List.getElem?_map, he]; rfl)
    rw [← List.map_take, List.map_map] at hsl
    have hsum2 : ((b.entries.take i).map (List.length ∘ chosenPayload)).sum =
        sumSizeFields (b.entries.take i) := by
      rw [sumSizeFields]
      refine congrArg List.sum (List.map_congr_left ?_)
      intro u hu
      have hu2 : u ∈ b.entries := List.mem_of_mem_take hu
      simp only [Function.comp_apply]
      rw [← sizeField_chosen u (hf u hu2)]
    rw [hsum2] at hsl
    exact hsl

/-- C2 counterexample: for the parsed bank of `c2ex` (no replacements
queued) the written size field is 4 while the chosen payload, the original
preloaded payload, has length 2 — and the serialized DATA payload has only
2 bytes — so the size field does not equal the length of the payload. -/
theorem c2_counterexample :
    ((parseBank c2ex).map fun b => rebuildTriples b.entries 0) =
      some (some [(1, 0, 4)]) ∧
    ((parseBank c2ex).map fun b => serializeAudioData b.entries) =
      some (some [160, 161]) ∧
    ((parseBank c2ex).map fun b => b.entries.map fun e => e.replacement) =
      some [none] ∧
    ((parseBank c2ex).map fun b => b.entries.map fun e => (chosenPayload e).length) =
      some [2] ∧
    (4 : Nat) ≠ 2 := by
  decide

/-- C2 witness: the replacement law instantiated on `c2wBank`. -/
theorem c2_replacement_law_witness :
    (∀ e ∈ c2wBank.entries, (finalSize e).isSome = true) ∧
    (∀ e ∈ c2wBank.entries, e.replacement = none → e.data.length = e.size) ∧
    ∃ ts ad, rebuildTriples c2wBank.entries 0 = some ts ∧
      serializeAudioData c2wBank.entries = some ad ∧
      ∀ i e, c2wBank.entries[i]? = some e →
        ts[i]? = some (e.id, sumSizeFields (c2wBank.entries.take i),
          (chosenPayload e).length) ∧
        (ad.drop (sumSizeFields (c2wBank.entries.take i))).take
          (chosenPayload e).length = chosenPayload e :=
  ⟨by decide, by decide, c2_replacement_law c2wBank (by decide) (by decide)⟩

/-- C3 (amended): in every saved bank whose queued replacements are
readable, each written index offset equals the sum of the written sizes of
the preceding entries (so the first offset is 0); and provided each
non-replaced entry's preloaded payload has its declared length, the DATA
chunk payload length equals the sum of all written sizes. -/
theorem c3_index_law (b : Bank)
    (hr : ∀ e ∈ b.entries, (finalSize e).isSome = true) :
    ∃ ts, rebuildTriples b.entries 0 = some ts ∧
      (∀ i t, ts[i]? = some t → t.2.1 = ((ts.take i).map fun u => u.2.2).sum) ∧
      ((∀ e ∈ b.entries, e.replacement = none → e.data.length = e.size) →
        ∃ ad, serializeAudioData b.entries = some ad ∧
          ad.length = (ts.map fun u => u.2.2).sum) := by
  refine ⟨specTriples b.entries 0, rebuildTriples_eq_spec b.entries 0 hr, ?_, ?_⟩
  · intro i t ht
    cases he : b.entries[i]? with
    | none =>
      rw [List.getElem?_eq_none_iff] at he
      rw [List.getElem?_eq_none_iff.2 (by rw [specTriples_length]; exact he)] at ht
      cases ht
    | some e =>
      rw [specTriples_getElem? b.entries 0 i e he] at ht
      cases ht
      have htk : ((specTriples b.entries 0).take i).map (fun u => u.2.2) =
          (b.entries.take i).map sizeField := by
        rw [List.map_take, specTriples_sizes, ← List.map_take]
      rw [htk, Nat.zero_add]
      rfl
  · intro hf
    refine ⟨(b.entries.map chosenPayload).flatten, serializeAudioData_spec b.entries hr, ?_⟩
    rw [flatten_len, specTriples_sizes, List.map_map]
    refine congrArg List.sum (List.map_congr_left ?_)
    intro u hu
    simp only [Function.comp_apply]
    rw [← sizeField_chosen u (hf u hu)]

/-- C3 counterexample: for the parsed bank of `c3ex` the single written
size is 10, but the serialized DATA payload has length 3, so the DATA
length does not equal the sum of the written sizes. -/
theorem c3_counterexample :
    ((parseBank c3ex).map fun b => rebuildTriples b.entries 0) =
      some (some [(5, 0, 10)]) ∧
    ((parseBank c3ex).map fun b => (serializeAudioData b.entries).map List.length) =
      some (some 3) ∧
    ((parseBank c3ex).map fun b => b.entries.map fun e => e.replacement) =
      some [none] ∧
    ¬((3 : Nat) = ([(5, 0, 10)].map fun t : Nat × Nat × Nat => t.2.2).sum) := by
  decide

/-- C3 witness: the index law instantiated on `c3wBank`. -/
theorem c3_index_law_witness :
    (∀ e ∈ c3wBank.entries, (finalSize e).isSome = true) ∧
    ∃ ts, rebuildTriples c3wBank.entries 0 = some ts ∧
      (∀ i t, ts[i]? = some t → t.2.1 = ((ts.take i).map fun u => u.2.2).sum) ∧
      ((∀ e ∈ c3wBank.entries, e.replacement = none → e.data.length = e.size) →
        ∃ ad, serializeAudioData c3wBank.entries = some ad ∧
          ad.length = (ts.map fun u => u.2.2).sum) :=
  ⟨by decide, c3_index_law c3wBank (by decide)⟩

/-! ## Claim C5 -/

theorem rebuildTriples_none : ∀ (es : List AudioEntry) (off : Nat),
    (∃ e ∈ es, finalSize e = none) → rebuildTriples es off = none := by
  intro es
  induction es with
  | nil => intro off h; simp at h
  | cons e es ih =>
    intro off h
    cases hfe : finalSize e with
    | none => simp [rebuildTriples, hfe]
    | some fs =>
      obtain ⟨u, hu, hufe⟩ := h
      rcases List.mem_cons.1 hu with rfl | hu2
      · rw [hfe] at hufe; cases hufe
      · simp [rebuildTriples, hfe, ih (off + fs) ⟨u, hu2, hufe⟩]

/-- C5 (amended): if any queued replacement's byte source fails to read,
saving fails, and the output is not atomic: the bytes already written —
the serialized header chunk — remain as a partial output. -/
theorem c5_failure_not_atomic (b : Bank)
    (h : ∃ e ∈ b.entries, finalSize e = none) :
    (save b).2 = false ∧ (save b).1 = headerOut b := by
  have hrt := rebuildTriples_none b.entries 0 h
  have hrai : rebuildAudioIndex b.entries = none := by
    rw [rebuildAudioIndex, hrt]
    rfl
  simp [save, hrai]

/-- C5 counterexample: parsing `c5ex`, queuing a replacement for id 1 whose
source exists at queue time but fails to read at save time, then saving,
fails after having written the 12-byte header chunk: the output is neither
complete nor empty, refuting atomicity. -/
theorem c5_counterexample :
    c5pipe = some (secBytes tagBKHD (enc32 140), false) ∧
    secBytes tagBKHD (enc32 140) ≠ ([] : List Nat) := by
  decide

/-- C5 witness: the failure-with-partial-output law on `c5wBank`. -/
theorem c5_failure_not_atomic_witness :
    (∃ e ∈ c5wBank.entries, finalSize e = none) ∧
    (save c5wBank).2 = false ∧ (save c5wBank).1 = headerOut c5wBank :=
  ⟨by decide, c5_failure_not_atomic c5wBank (by decide)⟩

/-! ## Claim C7 -/

theorem find?_updateReplacement (es : List AudioEntry) (aid : Nat) (src : ByteSource) :
    (updateReplacement es aid src).find? (fun e => e.id = aid) =
      (es.find? (fun e => e.id = aid)).map fun e => { e with replacement := some src } := by
  induction es with
  | nil => rfl
  | cons e es ih =>
    by_cases he : e.id = aid
    · simp [updateReplacement, List.find?, he]
    · simp only [updateReplacement, if_neg he, List.find?, decide_eq_false he]
      exact ih

theorem updateReplacement_twice (es : List AudioEntry) (aid : Nat)
    (src src2 : ByteSource) :
    updateReplacement (updateReplacement es aid src) aid src2 =
      updateReplacement es aid src2 := by
  induction es with
  | nil => rfl
  | cons e es ih =>
    by_cases he : e.id = aid
    · simp [updateReplacement, he]
    · simp [updateReplacement, he, ih]

theorem replaceAudio_found (b : Bank) (aid : Nat) (src : ByteSource) (e : AudioEntry)
    (hf : findAudioEntry b aid = some e) (hp : src.present = true) :
    replaceAudio b aid src =
      .ok { b with entries := updateReplacement b.entries aid src } := by
  simp only [replaceAudio, hf]
  rw [if_pos hp]

theorem findAudioEntry_update (b : Bank) (aid : Nat) (src : ByteSource)
    (e : AudioEntry) (hf : findAudioEntry b aid = some e) :
    findAudioEntry { b with entries := updateReplacement b.entries aid src } aid =
      some { e with replacement := some src } := by
  show (updateReplacement b.entries aid src).find? (fun u => u.id = aid) = _
  rw [find?_updateReplacement]
  have hf2 : b.entries.find? (fun u => u.id = aid) = some e := hf
  rw [hf2]
  rfl

/-- C7 (amended): `replace_audio` fails with the unknown-id error exactly
when the id is absent from the index; for a present id it succeeds and
records the source on the first entry with that id provided the
replacement file exists, and fails with a file-not-found error otherwise;
queuing twice records the later source (last writer wins). -/
theorem c7_queue_replacement (b : Bank) (aid : Nat) (src src2 : ByteSource) :
    (replaceAudio b aid src = .errUnknownAudioId ↔ findAudioEntry b aid = none) ∧
    (findAudioEntry b aid ≠ none → src.present = false →
      replaceAudio b aid src = .errReplacementNotFound) ∧
    (findAudioEntry b aid ≠ none → src.present = true →
      replaceAudio b aid src =
        .ok { b with entries := updateReplacement b.entries aid src } ∧
      ∀ e, findAudioEntry b aid = some e →
        findAudioEntry { b with entries := updateReplacement b.entries aid src } aid =
          some { e with replacement := some src }) ∧
    (findAudioEntry b aid ≠ none → src.present = true → src2.present = true →
      ∃ b1, replaceAudio b aid src = .ok b1 ∧
        replaceAudio b1 aid src2 =
          .ok { b with entries := updateReplacement b.entries aid src2 }) := by
  refine ⟨?_, ?_, ?_, ?_⟩
  · constructor
    · intro hres
      cases hfind : findAudioEntry b aid with
      | none => rfl
      | some e =>
        simp only [replaceAudio, hfind] at hres
        by_cases hp : src.present
        · rw [if_pos hp] at hres; cases hres
        · rw [if_neg hp] at hres; cases hres
    · intro hfind
      simp only [replaceAudio, hfind]
  · intro hfind hp
    cases hf : findAudioEntry b aid with
    | none => exact absurd hf hfind
    | some e =>
      simp only [replaceAudio, hf]
      rw [if_neg (by rw [hp]; simp)]
  · intro hfind hp
    cases hf : findAudioEntry b aid with
    | none => exact absurd hf hfind
    | some e =>
      refine ⟨replaceAudio_found b aid src e hf hp, ?_⟩
      intro u hu
      have hu2 : e = u := Option.some.inj hu
      subst hu2
      exact findAudioEntry_update b aid src e hf
  · intro hfind hp hp2
    cases hf : findAudioEntry b aid with
    | none => exact absurd hf hfind
    | some e =>
      refine ⟨{ b with entries := updateReplacement b.entries aid src },
        replaceAudio_found b aid src e hf hp, ?_⟩
      rw [replaceAudio_found _ aid src2 _ (findAudioEntry_update b aid src e hf) hp2]
      simp only [updateReplacement_twice]

/-- C7 counterexample: for the parsed bank of `c7ex`, id 1 is present in
the index, yet queuing a replacement whose file does not exist fails with
the file-not-found error instead of succeeding. -/
theorem c7_counterexample :
    ((parseBank c7ex).map fun b => (findAudioEntry b 1).isSome) = some true ∧
    ((parseBank c7ex).map fun b => replaceAudio b 1 ⟨false, none⟩) =
      some .errReplacementNotFound := by
  decide

/-- C7 witness: queuing on `c7wBank` for the present id 1 with an existing
file succeeds and records the source. -/
theorem c7_queue_replacement_witness :
    findAudioEntry c7wBank 1 ≠ none ∧
    (replaceAudio c7wBank 1 ⟨true, some [5]⟩ =
      .ok { c7wBank with entries := updateReplacement c7wBank.entries 1 ⟨true, some [5]⟩ } ∧
    ∀ e, findAudioEntry c7wBank 1 = some e →
      findAudioEntry { c7wBank with
          entries := updateReplacement c7wBank.entries 1 ⟨true, some [5]⟩ } 1 =
        some { e with replacement := some ⟨true, some [5]⟩ }) :=
  ⟨by decide,
    (c7_queue_replacement c7wBank 1 ⟨true, some [5]⟩ ⟨true, some [6]⟩).2.2.1
      (by decide) (by decide)⟩

/-! ## Claim C4 -/

theorem cyc_link : ∀ (fuel : Nat) (acc : List Nat),
    linkRecursive cycState fuel 1 acc = none ∧
    linkRecursive cycState fuel 2 acc = none := by
  intro fuel
  induction fuel with
  | zero => intro acc; exact ⟨rfl, rfl⟩
  | succ fuel ih =>
    intro acc
    have hs1 : lookupAssoc cycState.sounds 1 = none := rfl
    have hs2 : lookupAssoc cycState.sounds 2 = none := rfl
    have hc1 : lookupAssoc cycState.containers 1 = some cycContainerA := rfl
    have hc2 : lookupAssoc cycState.containers 2 = some cycContainerB := rfl
    have hA : containerChildIds cycContainerA = [2] := rfl
    have hB : containerChildIds cycContainerB = [1] := rfl
    constructor
    · simp only [linkRecursive, hs1, hc1, hA, Option.isSome_none, Bool.false_eq_true,
        if_false, List.foldlM]
      rw [(ih acc).2]
      rfl
    · simp only [linkRecursive, hs2, hc2, hB, Option.isSome_none, Bool.false_eq_true,
        if_false, List.foldlM]
      rw [(ih acc).1]
      rfl

/-- C4: the claim is that resolution completes on every hierarchy,
including cyclic container graphs.  The source walks container children
recursively with no visited set, so on the two-container cycle of
`cycState` the resolution of the single event never completes: at every
recursion-depth budget the fuelled model returns `none` (the Python code
recurses until `RecursionError`). -/
theorem c4_resolution_diverges : ∀ fuel : Nat, linkAudioToEvents cycState fuel = none := by
  intro fuel
  have ha1 : lookupAssoc cycState.actions 1 = none := rfl
  have hc1 : lookupAssoc cycState.containers 1 = some cycContainerA := rfl
  have hA : containerChildIds cycContainerA = [2] := rfl
  have hlcc : linkContainerChildren cycState fuel 1 [] = none := by
    simp only [linkContainerChildren, hc1, hA, List.foldlM]
    rw [(cyc_link fuel []).2]
    rfl
  have hper : processEventReference cycState fuel 1 [] = none := by
    simp only [processEventReference, ha1, hc1, Option.isSome_some, if_true, hlcc]
  have hres : resolveEvent cycState fuel [1] = none := by
    simp only [resolveEvent, List.foldlM, hper]
    rfl
  have hev : cycState.events = [⟨100, [1]⟩] := rfl
  simp only [linkAudioToEvents, hev, List.foldlM, hres]
  rfl

/-! ## Claim C6 -/

/-- C6 (amended): after any HIRC record whose inner parse does not raise,
the stream advances to exactly the header end plus the declared record
size, independent of what the inner parser consumed, and the record loop
clamps a position past the chunk end to the chunk end; truncation relative
to the declared size inside Action, Container and Sound records (with the
accessed bytes in the buffer) yields partial records whose missing fields
are none; Event records do not tolerate truncation (see the
counterexample). -/
theorem c6_advance_and_truncation :
    (∀ (data : List Nat) (ver pos : Nat) (st st2 : EPState) (p2 : Nat),
      hircStep data ver pos st = some (st2, p2) →
      ∃ ty osize dpos, readObjectHeader data pos ver = some (ty, osize, dpos) ∧
        p2 = dpos + osize) ∧
    (∀ (data : List Nat) (pos size : Nat), pos + 4 ≤ data.length → size < 6 →
      parseAction data pos size =
        some (some ⟨bytesToNat ((data.drop pos).take 4), none, none⟩)) ∧
    (∀ (data : List Nat) (pos size : Nat), pos + size ≤ data.length →
      pos + 4 ≤ data.length → 6 ≤ size → size < 10 →
      parseAction data pos size =
        some (some ⟨bytesToNat ((data.drop pos).take 4), none,
          some (bytesToNat ((data.drop (pos + 4)).take 2))⟩)) ∧
    (∀ (data : List Nat) (pos size ver : Nat), pos + 4 ≤ data.length → size < 6 →
      parseContainer data pos size ver =
        some (some ⟨bytesToNat ((data.drop pos).take 4), [], [], none, none, none,
          none, none, none⟩)) ∧
    (∀ (data : List Nat) (pos size : Nat), pos + 4 ≤ data.length → size < 12 →
      parseSound data pos size =
        some (some ⟨bytesToNat ((data.drop pos).take 4), none⟩)) ∧
    (∀ (data : List Nat) (ver endPos n pos : Nat) (st st2 : EPState) (p2 : Nat),
      hircStep data ver pos st = some (st2, p2) → endPos < p2 →
      hircLoop data ver endPos (n + 1) pos st = some (st2, endPos)) := by
  refine ⟨?_, ?_, ?_, ?_, ?_, ?_⟩
  · intro data ver pos st st2 p2 h
    cases hr : readObjectHeader data pos ver with
    | none =>
      simp only [hircStep, hr] at h
      exact Option.noConfusion h
    | some t =>
      obtain ⟨ty, osize, dpos⟩ := t
      simp only [hircStep, hr] at h
      refine ⟨ty, osize, dpos, rfl, ?_⟩
      cases hd : hircDispatch data ver ty dpos osize st with
      | none => rw [hd] at h; exact Option.noConfusion h
      | some st3 =>
        rw [hd] at h
        have h2 := Option.some.inj h
        exact (congrArg Prod.snd h2).symm
  · intro data pos size h4 hs
    unfold parseAction
    rw [if_neg (by omega), if_neg (by omega), if_neg (by omega)]
  · intro data pos size hbuf h4 h6 h10
    unfold parseAction
    rw [if_neg (by omega), if_pos (by omega)]
    have hu : u16At data (pos + 4) = some (bytesToNat ((data.drop (pos + 4)).take 2)) := by
      unfold u16At
      rw [if_pos (by omega)]
    simp only [hu]
    rw [if_neg (by omega)]
  · intro data pos size ver h4 hs
    have hl : parseLoopCounts data (pos + 4) (pos + size) ver = some (pos + 4, none) := by
      unfold parseLoopCounts
      rw [if_pos (by omega)]
    have ht : parseTransitionTimes data (pos + 4) (pos + size) =
        some (pos + 4, none, none) := by
      unfold parseTransitionTimes
      rw [if_pos (by omega)]
    have ha : parseAvoidRepeatCount data (pos + 4) (pos + size) = some (pos + 4, none) := by
      unfold parseAvoidRepeatCount
      rw [if_pos (by omega)]
    have hm : parseModesAndFlags data (pos + 4) (pos + size) ver =
        some (pos + 4, none, none) := by
      unfold parseModesAndFlags
      rw [if_pos (by omega)]
    have hc : parseChildren data (pos + 4) (pos + size) = some [] := by
      unfold parseChildren
      rw [if_pos (by omega)]
    have hp : ∀ q : Nat, pos + 12 ≤ q →
        parsePlaylist data q (pos + size) ver = some [] := by
      intro q hq
      unfold parsePlaylist
      by_cases hv : ver ≤ 38
      · rw [if_pos hv, if_pos (by omega)]
      · rw [if_neg hv, if_pos (by omega)]
    unfold parseContainer
    rw [if_neg (by omega)]
    simp only [hl, ht, ha, hm, if_neg (show ¬84 < size by omega), hc,
      hp (pos + 4 + 8 + 4 * List.length ([] : List Nat)) (by simp)]
  · intro data pos size h4 hs
    unfold parseSound
    rw [if_neg (by omega), if_pos (by omega)]
  · intro data ver endPos n pos st st2 p2 hstep hlt
    simp only [hircLoop, hstep]
    rw [if_pos hlt]

/-- C6 counterexample: a HIRC chunk with one Event record of declared size
8 whose action count requires reads past the record and the buffer end:
the parse raises (returns `none`) instead of yielding a partial record. -/
theorem c6_counterexample :
    parseHirc c6ex 141 0 c6ex.length epSt0 = none ∧
    parseEvent c6ex 9 8 141 = none := by
  decide

/-- C6 witness: the advancement law at a concrete Sound record, and the
partial-record laws at concrete truncated Action and Container records. -/
theorem c6_advance_and_truncation_witness :
    (∃ ty osize dpos, readObjectHeader c6wex 0 141 = some (ty, osize, dpos) ∧
      9 = dpos + osize) ∧
    parseAction c9wex 0 5 =
      some (some ⟨bytesToNat ((c9wex.drop 0).take 4), none, none⟩) ∧
    parseAction c9wex 0 8 =
      some (some ⟨bytesToNat ((c9wex.drop 0).take 4), none,
        some (bytesToNat ((c9wex.drop 4).take 2))⟩) ∧
    parseContainer c9wex 0 5 141 =
      some (some ⟨bytesToNat ((c9wex.drop 0).take 4), [], [], none, none, none,
        none, none, none⟩) ∧
    parseSound c9wex 0 8 =
      some (some ⟨bytesToNat ((c9wex.drop 0).take 4), none⟩) ∧
    hircLoop c6wex 141 7 1 0 epSt0 = some (c6wSt, 7) :=
  ⟨c6_advance_and_truncation.1 c6wex 141 0 epSt0 c6wSt 9 (by decide),
    c6_advance_and_truncation.2.1 c9wex 0 5 (by decide) (by decide),
    c6_advance_and_truncation.2.2.1 c9wex 0 8 (by decide) (by decide) (by decide) (by decide),
    c6_advance_and_truncation.2.2.2.1 c9wex 0 5 141 (by decide) (by decide),
    c6_advance_and_truncation.2.2.2.2.1 c9wex 0 8 (by decide) (by decide),
    c6_advance_and_truncation.2.2.2.2.2 c6wex 141 7 0 0 epSt0 c6wSt 9 (by decide)
      (by decide)⟩

/-! ## Claim C8 -/

/-- C8 (amended): the patcher's top-level scan recognises only BKHD, DIDX
and DATA — a HIRC tag counts as unknown, halting the scan and starting the
trailing bytes — and the scan also stops right after consuming a DATA
chunk; the hierarchy-parsing pass skips chunks other than HIRC and DIDX by
their declared size and processes HIRC wherever it appears. -/
theorem c8_chunk_scan :
    (∀ (f : Nat) (rem : List Nat) (bk dx : Option (List Nat)), 4 ≤ rem.length →
      ¬(rem.take 4 = tagBKHD ∨ rem.take 4 = tagDIDX ∨ rem.take 4 = tagDATA) →
      parseSectionsAux (f + 1) rem bk dx = some ⟨bk, dx, none, rem⟩) ∧
    (∀ (f : Nat) (rem : List Nat) (bk dx : Option (List Nat)),
      rem.take 4 = tagDATA → 8 ≤ rem.length →
      parseSectionsAux (f + 1) rem bk dx =
        some ⟨bk, dx, some (bytesToNat ((rem.drop 4).take 4), rem.drop 8),
          (rem.drop 8).drop (bytesToNat ((rem.drop 4).take 4))⟩) ∧
    (∀ (data : List Nat) (ver f pos : Nat) (st : EPState), pos + 8 ≤ data.length →
      (data.drop pos).take 4 ≠ tagHIRC → (data.drop pos).take 4 ≠ tagDIDX →
      epChunkLoop data ver (f + 1) pos st =
        epChunkLoop data ver f (pos + 8 + bytesToNat ((data.drop (pos + 4)).take 4)) st) ∧
    (∀ (data : List Nat) (ver f pos : Nat) (st : EPState), pos + 8 ≤ data.length →
      (data.drop pos).take 4 = tagHIRC →
      epChunkLoop data ver (f + 1) pos st =
        match parseHirc data ver (pos + 8) (bytesToNat ((data.drop (pos + 4)).take 4)) st with
        | none => none
        | some (st2, p3) => epChunkLoop data ver f p3 st2) := by
  refine ⟨psa_unknown, psa_data, ?_, ?_⟩
  · intro data ver f pos st h8 hn1 hn2
    have hrch : readChunkHeader data pos =
        (some ((data.drop pos).take 4), bytesToNat ((data.drop (pos + 4)).take 4),
          pos + 8) := by
      unfold readChunkHeader
      rw [if_neg (by omega)]
    simp only [epChunkLoop]
    rw [if_neg (by omega)]
    simp only [hrch]
    rw [if_neg (by simp only [Option.some.injEq]; exact hn1),
      if_neg (by simp only [Option.some.injEq]; exact hn2)]
  · intro data ver f pos st h8 hh
    have hrch : readChunkHeader data pos =
        (some ((data.drop pos).take 4), bytesToNat ((data.drop (pos + 4)).take 4),
          pos + 8) := by
      unfold readChunkHeader
      rw [if_neg (by omega)]
    simp only [epChunkLoop]
    rw [if_neg (by omega)]
    simp only [hrch]
    rw [if_pos (by rw [hh])]

/-- C8 counterexample: a buffer starting with a well-formed HIRC chunk —
claimed to be in the patcher scan's recognised set — is captured whole as
trailing bytes with no chunk yielded, instead of being consumed. -/
theorem c8_counterexample :
    parseSections c8ex = some ⟨none, none, none, c8ex⟩ ∧
    c8ex.take 4 = tagHIRC ∧ c8ex ≠ [] := by
  decide

/-- C8 witness: the four scan laws at concrete buffers. -/
theorem c8_chunk_scan_witness :
    parseSectionsAux 1 [88, 88, 88, 88] none none =
      some ⟨none, none, none, [88, 88, 88, 88]⟩ ∧
    parseSectionsAux 1 (tagDATA ++ enc32 1 ++ [9, 7]) none none =
      some ⟨none, none,
        some (bytesToNat (((tagDATA ++ enc32 1 ++ [9, 7]).drop 4).take 4),
          (tagDATA ++ enc32 1 ++ [9, 7]).drop 8),
        ((tagDATA ++ enc32 1 ++ [9, 7]).drop 8).drop
          (bytesToNat (((tagDATA ++ enc32 1 ++ [9, 7]).drop 4).take 4))⟩ ∧
    epChunkLoop ([88, 88, 88, 88] ++ enc32 2 ++ [0, 0]) 141 1 0 epSt0 =
      epChunkLoop ([88, 88, 88, 88] ++ enc32 2 ++ [0, 0]) 141 0
        (0 + 8 + bytesToNat ((([88, 88, 88, 88] ++ enc32 2 ++ [0, 0]).drop 4).take 4))
        epSt0 ∧
    epChunkLoop (tagHIRC ++ enc32 4 ++ enc32 0) 141 1 0 epSt0 =
      match parseHirc (tagHIRC ++ enc32 4 ++ enc32 0) 141 8
          (bytesToNat (((tagHIRC ++ enc32 4 ++ enc32 0).drop 4).take 4)) epSt0 with
      | none => none
      | some (st2, p3) => epChunkLoop (tagHIRC ++ enc32 4 ++ enc32 0) 141 0 p3 st2 :=
  ⟨c8_chunk_scan.1 0 [88, 88, 88, 88] none none (by decide) (by decide),
    c8_chunk_scan.2.1 0 (tagDATA ++ enc32 1 ++ [9, 7]) none none (by decide) (by decide),
    c8_chunk_scan.2.2.1 ([88, 88, 88, 88] ++ enc32 2 ++ [0, 0]) 141 0 0 epSt0
      (by decide) (by decide) (by decide),
    c8_chunk_scan.2.2.2 (tagHIRC ++ enc32 4 ++ enc32 0) 141 0 0 epSt0
      (by decide) (by decide)⟩

/-! ## Claim C9 -/

/-- C9 (amended): for a Sound record whose declared extent lies in the
buffer, the parser reads the first u32 as the sound id; it skips 4 bytes
then 1 byte and reads the source id as a u32 if and only if the record
payload has at least 9 bytes after the id (declared size at least 13
counting the 4 id bytes); otherwise the Sound's source is none. -/
theorem c9_sound_layout (data : List Nat) (pos size : Nat)
    (hbuf : pos + size ≤ data.length) (hid : pos + 4 ≤ data.length) :
    (size < 13 → parseSound data pos size =
      some (some ⟨bytesToNat ((data.drop pos).take 4), none⟩)) ∧
    (13 ≤ size → parseSound data pos size =
      some (some ⟨bytesToNat ((data.drop pos).take 4),
        some (bytesToNat ((data.drop (pos + 9)).take 4))⟩)) := by
  constructor
  · intro hs
    unfold parseSound
    rw [if_neg (by omega)]
    by_cases h12 : size < 12
    · rw [if_pos (by omega)]
    · rw [if_neg (by omega), if_pos (by omega)]
  · intro hs
    unfold parseSound
    rw [if_neg (by omega), if_neg (by omega), if_neg (by omega)]
    have hu : u32At data (pos + 9) = some (bytesToNat ((data.drop (pos + 9)).take 4)) := by
      unfold u32At
      rw [if_pos (by omega)]
    rw [hu]

/-- C9 counterexample: a 13-byte Sound record (9 bytes after the id) does
read a source id, although the claim says at least 13 bytes after the id
are required and predicts source = none here. -/
theorem c9_counterexample :
    parseSound c9ex 0 13 = some (some ⟨5, some 77⟩) ∧ c9ex.length = 13 := by
  decide

/-- C9 witness: both directions of the layout law at concrete records. -/
theorem c9_sound_layout_witness :
    parseSound c9wex 0 12 = some (some ⟨bytesToNat ((c9wex.drop 0).take 4), none⟩) ∧
    parseSound c9wex2 0 14 = some (some ⟨bytesToNat ((c9wex2.drop 0).take 4),
      some (bytesToNat ((c9wex2.drop 9).take 4))⟩) :=
  ⟨(c9_sound_layout c9wex 0 12 (by decide) (by decide)).1 (by decide),
    (c9_sound_layout c9wex2 0 14 (by decide) (by decide)).2 (by decide)⟩

/-! ## Claim C10 -/

theorem epDidxLoop_spec : ∀ (k : Nat) (data : List Nat) (endPos p : Nat),
    p + 12 * k ≤ endPos → endPos ≤ data.length →
    epDidxLoop data endPos k p =
      some ((List.range k).map fun i => bytesToNat ((data.drop (p + 12 * i)).take 4)) := by
  intro k
  induction k with
  | zero => intro data endPos p _ _; rfl
  | succ k ih =>
    intro data endPos p hk hlen
    unfold epDidxLoop
    rw [if_neg (by omega)]
    have hu : u32At data p = some (bytesToNat ((data.drop p).take 4)) := by
      unfold u32At
      rw [if_pos (by omega)]
    rw [hu, ih data endPos (p + 12) (by omega) hlen]
    rw [List.range_succ_eq_map, List.map_cons, List.map_map]
    simp only [Option.map_some', Option.some.injEq]
    congr 1
    refine List.map_congr_left ?_
    intro i _
    simp only [Function.comp_apply, Nat.succ_eq_add_one]
    have harith : p + 12 * (i + 1) = p + 12 + 12 * i := by ring
    rw [harith]

/-- C10: for a DIDX payload whose length is not a multiple of 12 (or any
length), both parsers silently ignore the trailing remainder: the patcher
produces exactly `length / 12` entries, each read as three consecutive
u32 values (id, offset, size); the hierarchy parser reads exactly
`size / 12` ids (one u32 per 12-byte record) without raising, provided
the chunk lies within the buffer. -/
theorem c10_didx_remainder (d data : List Nat) (pos size : Nat)
    (hbuf : pos + size ≤ data.length) :
    (didxTriples d).length = d.length / 12 ∧
    (∀ i, i < d.length / 12 → (didxTriples d)[i]? =
      some (bytesToNat ((d.drop (12 * i)).take 4),
        bytesToNat ((d.drop (12 * i + 4)).take 4),
        bytesToNat ((d.drop (12 * i + 8)).take 4))) ∧
    epDidxLoop data (pos + size) (size / 12) pos =
      some ((List.range (size / 12)).map fun i =>
        bytesToNat ((data.drop (pos + 12 * i)).take 4)) := by
  refine ⟨didxTriples_length d, fun i hi => didxTriples_getElem? d i hi, ?_⟩
  refine epDidxLoop_spec (size / 12) data (pos + size) pos ?_ hbuf
  have hm := Nat.div_mul_le_self size 12
  omega

/-- C10 witness: the remainder law at a 26-byte DIDX payload (two records
plus 2 leftover bytes). -/
theorem c10_didx_remainder_witness :
    (didxTriples c10wd).length = c10wd.length / 12 ∧
    (∀ i, i < c10wd.length / 12 → (didxTriples c10wd)[i]? =
      some (bytesToNat ((c10wd.drop (12 * i)).take 4),
        bytesToNat ((c10wd.drop (12 * i + 4)).take 4),
        bytesToNat ((c10wd.drop (12 * i + 8)).take 4))) ∧
    epDidxLoop c10wdata (8 + 26) (26 / 12) 8 =
      some ((List.range (26 / 12)).map fun i =>
        bytesToNat ((c10wdata.drop (8 + 12 * i)).take 4)) :=
  c10_didx_remainder c10wd c10wdata 8 26 (by decide)

end WwiseBnk
